import Mathlib

/-!
Shallow embedding of the `latam-deal-engine` repository (src/src/*.py) and
proofs about the claims of its specification.

Conventions:
* Python strings are Lean `String`s; character-level work uses `List Char`.
* Python `re.sub(pat, "", s)` for the three tracking-parameter patterns is
  embedded as an explicit left-to-right scanner (`scanSub`), with the two
  pattern shapes (`tryUtm` for `[?&]utm_[^=]+=[^&]+`, `tryKey` for
  `[?&]<key>=[^&]+`) implemented as first-match attempt functions.
* Machine-level collaborators (feedparser, httpx, groq, telegram, sqlite)
  are modelled as oracle functions supplied to the orchestrator, matching
  the spec's "external collaborator" treatment.
-/

namespace DealEngine

/-- Python `str.strip()` (whitespace at both ends), on char lists. -/
def pyStripL (l : List Char) : List Char :=
  ((l.dropWhile Char.isWhitespace).reverse.dropWhile Char.isWhitespace).reverse

/-- Python `str.strip()` on strings. -/
def pyStrip (s : String) : String :=
  String.mk (pyStripL s.data)

/-- A URL query-separator character, the `[?&]` class of the regexes in
`src/utils.py`. -/
def isSep (c : Char) : Bool := c == '?' || c == '&'

/-- Split a char list at the first occurrence of `ch`:
returns the chars before it and, when found, the chars after it. -/
def splitAtChar (ch : Char) : List Char → List Char × Option (List Char)
  | [] => ([], none)
  | c :: r =>
    if c == ch then ([], some r)
    else
      let p := splitAtChar ch r
      (c :: p.1, p.2)

/-- Greedy span of characters different from `ch`:
returns the longest `ch`-free front and the remainder (which is empty or
starts with `ch`).  This is `[^ch]*` followed by the rest. -/
def spanNe (ch : Char) : List Char → List Char × List Char
  | [] => ([], [])
  | c :: r =>
    if c == ch then ([], c :: r)
    else
      let p := spanNe ch r
      (c :: p.1, p.2)

/-- Strip a literal front `key` from `l`, returning the remainder. -/
def stripFront : List Char → List Char → Option (List Char)
  | [], l => some l
  | _ :: _, [] => none
  | k :: ks, c :: r => if c == k then stripFront ks r else none

def utmChars : List Char := ['u', 't', 'm', '_']

/-- Attempt, at a position just after a `[?&]`, the tail of the pattern
`[?&]utm_[^=]+=[^&]+` of `normalize_url` (src/utils.py line 10):
the literal `utm_`, a nonempty run without `=`, the `=`, and a nonempty run
without `&`.  On success returns the unconsumed remainder (empty or
starting with `&`). -/
def tryUtm (l : List Char) : Option (List Char) :=
  match stripFront utmChars l with
  | none => none
  | some r =>
    match splitAtChar '=' r with
    | (_, none) => none
    | ([], some _) => none
    | (_ :: _, some r2) =>
      match spanNe '&' r2 with
      | ([], _) => none
      | (_ :: _, rest) => some rest

/-- Attempt, just after a `[?&]`, the tail of `[?&]<key>=[^&]+`
(the `fbclid`/`gclid` patterns of src/utils.py lines 11-12): the literal
`<key>=`, then a nonempty run without `&`. -/
def tryKey (key : List Char) (l : List Char) : Option (List Char) :=
  match stripFront (key ++ ['=']) l with
  | none => none
  | some r2 =>
    match spanNe '&' r2 with
    | ([], _) => none
    | (_ :: _, rest) => some rest

/-- Fuel-driven scanner embedding Python `re.sub(pat, "", s)` for the three
patterns above: scan left to right, at each `[?&]` attempt the pattern tail;
on success delete the match and continue after it, otherwise keep the
character.  The fuel is only a structural-recursion device; `scanSub` below
always supplies enough. -/
def scanAux (t : List Char → Option (List Char)) : Nat → List Char → List Char
  | _, [] => []
  | 0, l => l
  | n + 1, c :: r =>
    if isSep c then
      match t r with
      | some r' => scanAux t n r'
      | none => c :: scanAux t n r
    else c :: scanAux t n r

/-- `re.sub(pat, "", s)` for an attempt function `t`. -/
def scanSub (t : List Char → Option (List Char)) (l : List Char) : List Char :=
  scanAux t l.length l

/-- The final `re.sub(r"[?&]$", "", u)` of `normalize_url`: removes a single
trailing `?` or `&`. -/
def dropTrailingSep (l : List Char) : List Char :=
  match l.getLast? with
  | some c => if isSep c then l.dropLast else l
  | none => l

def fbclidChars : List Char := ['f', 'b', 'c', 'l', 'i', 'd']
def gclidChars : List Char := ['g', 'c', 'l', 'i', 'd']

/-- `normalize_url` (src/utils.py lines 7-15): strip, remove `utm_*`,
`fbclid`, `gclid` query parameters, then drop one trailing `?`/`&`. -/
def normalize_url (s : String) : String :=
  let u := pyStripL s.data
  let u := scanSub tryUtm u
  let u := scanSub (tryKey fbclidChars) u
  let u := scanSub (tryKey gclidChars) u
  String.mk (dropTrailingSep u)

example : normalize_url "" = "" := by decide
example : normalize_url "https://a.com/x?utm_source=tw&b=2" = "https://a.com/x&b=2" := by decide
example : normalize_url "https://a.com/x?fbclid=abc" = "https://a.com/x" := by decide
example : normalize_url "??" = "?" := by decide
example : normalize_url "?" = "" := by decide
example : normalize_url "  https://a.com/x  " = "https://a.com/x" := by decide

/-! ## Scoring engine (src/score.py) -/

/-- Python `max` on two ints (kernel-reducible). -/
def pyMax (a b : Int) : Int := if a ≤ b then b else a

/-- Python `min` on two ints (kernel-reducible). -/
def pyMin (a b : Int) : Int := if a ≤ b then a else b

/-- `ScoreResult` (src/score.py lines 5-8). -/
structure ScoreResult where
  score : Int
  reasons : List String
  deriving Repr, DecidableEq

/-- `FOCUS_COUNTRIES` (src/score.py line 10). -/
def FOCUS_COUNTRIES : List String :=
  ["argentina", "brazil", "brasil", "mexico", "colombia", "chile", "peru", "uruguay"]

/-- `FOCUS_SECTORS` (src/score.py line 11). -/
def FOCUS_SECTORS : List String :=
  ["edtech", "hrtech", "fintech", "fintech_infra", "payments", "ai",
   "cybersecurity", "logistics", "govtech"]

/-- The `stage_points` dict of `compute_score` (src/score.py lines 37-49);
`.get(st, 0)` behaviour is the catch-all 0. -/
def stage_points : String → Int
  | "Seed" => 10
  | "Series A" => 22
  | "Series B" => 18
  | "Series C" => 14
  | "Growth" => 12
  | "Debt" => 6
  | "Grant" => 6
  | "M&A" => 16
  | "IPO" => 20
  | "Pre-Seed" => 8
  | "Unknown" => 0
  | _ => 0

/-- Python `str.lower()` (ASCII range suffices for the focus sets). -/
def pyLower (s : String) : String := String.mk (s.data.map Char.toLower)

/-- The lower-cased signal set
`{x.strip().lower() for x in (signals or []) if x}` of src/score.py line 55;
set membership below is list membership, which coincides. -/
def sigset (signals : List String) : List String :=
  (signals.filter (fun x => x ≠ "")).map (fun x => pyLower (pyStrip x))

/-- `compute_score` (src/score.py lines 13-75), embedded with the source's
sequential accumulation of `s` and `reasons`. -/
def compute_score (country stage sector business_model : Option String)
    (signals investors : List String) : ScoreResult :=
  let c := pyLower (pyStrip (country.getD ""))
  let st := pyStrip (stage.getD "Unknown")
  let sec := pyLower (pyStrip (sector.getD ""))
  let bm := pyStrip (business_model.getD "Unknown")
  let s : Int := 0
  let reasons : List String := []
  let s := if c ≠ "" ∧ pyLower c ∈ FOCUS_COUNTRIES then s + 12 else s
  let reasons := if c ≠ "" ∧ pyLower c ∈ FOCUS_COUNTRIES then reasons ++ ["focus_country"] else reasons
  let s := if bm = "B2B" then s + 18 else if bm = "B2B2C" then s + 10 else s
  let reasons := if bm = "B2B" then reasons ++ ["b2b"] else if bm = "B2B2C" then reasons ++ ["b2b2c"] else reasons
  let s := s + stage_points st
  let reasons := if stage_points st > 0 then reasons ++ ["stage_" ++ st] else reasons
  let sset := sigset signals
  let s := if sec ∈ FOCUS_SECTORS then s + 12 else s
  let reasons := if sec ∈ FOCUS_SECTORS then reasons ++ ["focus_sector"] else reasons
  let s := if "expansion" ∈ sset then s + 14 else s
  let reasons := if "expansion" ∈ sset then reasons ++ ["expansion_signal"] else reasons
  let s := if "enterprise" ∈ sset then s + 10 else s
  let reasons := if "enterprise" ∈ sset then reasons ++ ["enterprise_signal"] else reasons
  let s := if "govtech" ∈ sset then s + 8 else s
  let reasons := if "govtech" ∈ sset then reasons ++ ["govtech_signal"] else reasons
  let named := investors.filter (fun x => x ≠ "" ∧ (pyStrip x).length ≥ 3)
  let s := if named.length ≥ 3 then s + 6 else if named.length = 2 then s + 3 else s
  let reasons := if named.length ≥ 3 then reasons ++ ["multiple_investors"]
    else if named.length = 2 then reasons ++ ["some_investors"] else reasons
  let s := pyMax 0 (pyMin 100 s)
  ⟨s, reasons⟩

/-- The scoring contract as the specification words it (spec section 4.4):
one additive contribution and one reason tag per table row, contributions
summed, the sum clamped to `[0,100]`, and the reason tags concatenated in
the fixed evaluation order country, business model, stage, sector, signals,
investors. -/
def score_spec (country stage sector business_model : Option String)
    (signals investors : List String) : ScoreResult :=
  let c := pyLower (pyStrip (country.getD ""))
  let st := pyStrip (stage.getD "Unknown")
  let sec := pyLower (pyStrip (sector.getD ""))
  let bm := pyStrip (business_model.getD "Unknown")
  let sset := sigset signals
  let named := investors.filter (fun x => x ≠ "" ∧ (pyStrip x).length ≥ 3)
  let countryPts : Int := if c ≠ "" ∧ pyLower c ∈ FOCUS_COUNTRIES then 12 else 0
  let bmPts : Int := if bm = "B2B" then 18 else if bm = "B2B2C" then 10 else 0
  let sectorPts : Int := if sec ∈ FOCUS_SECTORS then 12 else 0
  let expPts : Int := if "expansion" ∈ sset then 14 else 0
  let entPts : Int := if "enterprise" ∈ sset then 10 else 0
  let govPts : Int := if "govtech" ∈ sset then 8 else 0
  let invPts : Int := if named.length ≥ 3 then 6 else if named.length = 2 then 3 else 0
  let total := countryPts + bmPts + stage_points st + sectorPts + expPts + entPts + govPts + invPts
  let tags :=
    (if c ≠ "" ∧ pyLower c ∈ FOCUS_COUNTRIES then ["focus_country"] else []) ++
    (if bm = "B2B" then ["b2b"] else if bm = "B2B2C" then ["b2b2c"] else []) ++
    (if stage_points st > 0 then ["stage_" ++ st] else []) ++
    (if sec ∈ FOCUS_SECTORS then ["focus_sector"] else []) ++
    (if "expansion" ∈ sset then ["expansion_signal"] else []) ++
    (if "enterprise" ∈ sset then ["enterprise_signal"] else []) ++
    (if "govtech" ∈ sset then ["govtech_signal"] else []) ++
    (if named.length ≥ 3 then ["multiple_investors"]
     else if named.length = 2 then ["some_investors"] else [])
  ⟨pyMax 0 (pyMin 100 total), tags⟩

lemma ite_add_pull (p : Prop) [Decidable p] (s k : Int) :
    (if p then s + k else s) = s + (if p then k else 0) := by
  split <;> simp

lemma ite_add_pull2 (p q : Prop) [Decidable p] [Decidable q] (s k1 k2 : Int) :
    (if p then s + k1 else s + (if q then k2 else 0)) =
      s + (if p then k1 else if q then k2 else 0) := by
  split <;> rfl

lemma ite_app_pull (p : Prop) [Decidable p] (r : List String) (t : String) :
    (if p then r ++ [t] else r) = r ++ (if p then [t] else []) := by
  split <;> simp

lemma ite_app_pull2 (p q : Prop) [Decidable p] [Decidable q] (r : List String) (t1 t2 : String) :
    (if p then r ++ [t1] else r ++ (if q then [t2] else [])) =
      r ++ (if p then [t1] else if q then [t2] else []) := by
  split <;> rfl

set_option maxHeartbeats 1000000 in
/-- C6.  `compute_score` implements the additive contribution table with the
reason tags appended in the fixed evaluation order (country, business model,
stage, sector, signals, investors) and the sum clamped to `[0,100]`
(`compute_score = score_spec` for all inputs); the concrete B2B/Series A/
Brazil/fintech/3-investors/expansion input scores 84 with exactly the six
tags in that order; and the all-null input scores 0 with no tags. -/
theorem compute_score_spec_conformance :
    (∀ country stage sector business_model signals investors,
      compute_score country stage sector business_model signals investors =
        score_spec country stage sector business_model signals investors) ∧
    compute_score (some "Brazil") (some "Series A") (some "fintech") (some "B2B")
        ["expansion"] ["Kaszek", "QED", "Monashees"] =
      ⟨84, ["focus_country", "b2b", "stage_Series A", "focus_sector",
            "expansion_signal", "multiple_investors"]⟩ ∧
    compute_score none none none none [] [] = ⟨0, []⟩ := by
  refine ⟨?_, by decide, by decide⟩
  intro country stage sector business_model signals investors
  dsimp only [compute_score, score_spec]
  generalize (pyLower (pyStrip (country.getD "")) : String) = c
  generalize (pyStrip (stage.getD "Unknown") : String) = st
  generalize (pyLower (pyStrip (sector.getD "")) : String) = sec
  generalize (pyStrip (business_model.getD "Unknown") : String) = bm
  generalize (sigset signals : List String) = sset
  generalize (investors.filter (fun x => x ≠ "" ∧ (pyStrip x).length ≥ 3) : List String) = named
  generalize stage_points st = sp
  simp only [ite_add_pull, ite_add_pull2, ite_app_pull, ite_app_pull2]
  refine congrArg₂ ScoreResult.mk ?_ ?_
  · congr 1
    congr 1
    omega
  · simp only [List.nil_append, List.append_assoc]

/-! ## Seen-set state manager (src/storage.py) -/

/-- The run-state JSON document (src/storage.py line 49). -/
structure PyState where
  seen_urls : List String
  seen_guids : List String
  last_run_utc : Option String
  deriving Repr, DecidableEq

/-- `is_seen` (src/storage.py lines 58-60): true iff the normalized URL is in
the URL set, or the guid is non-empty (Python truthiness) and in the guid
set.  Python set membership is list membership here. -/
def is_seen (st : PyState) (url guid : String) : Bool :=
  let u := normalize_url url
  st.seen_urls.contains u || (guid != "" && st.seen_guids.contains guid)

/-- Python `l[-n:]`: the last `n` elements of `l`. -/
def lastN (n : Nat) (l : List String) : List String := l.drop (l.length - n)

/-- `mark_seen` (src/storage.py lines 62-73).  The Python code rebuilds
`set(state["seen_urls"])`, adds the normalized URL (and the guid when
non-empty), and stores `list(<set>)[-5000:]`.  CPython specifies no
iteration order for string sets (hashing is salted per process), so the
enumeration `list(set(...))` is modelled by the parameter `ord`; any
duplicate-free reordering of its input's elements is a faithful instance
(`id` is one such instance whenever the input list is duplicate-free).
`now` models `utc_now_iso()`. -/
def mark_seen (ord : List String → List String) (now : String)
    (st : PyState) (url guid : String) : PyState :=
  let u := normalize_url url
  let urls := u :: st.seen_urls
  let guids := if guid != "" then guid :: st.seen_guids else st.seen_guids
  { seen_urls := lastN 5000 (ord urls)
    seen_guids := lastN 5000 (ord guids)
    last_run_utc := some now }

/-- 5000 pairwise-distinct URLs, used to fill the seen-URL set. -/
def bigUrls : List String :=
  (List.range 5000).map (fun i => String.mk (List.replicate (i + 1) 'u'))

/-- 5000 pairwise-distinct guids, used to fill the seen-guid set. -/
def bigGuids : List String :=
  (List.range 5000).map (fun i => String.mk (List.replicate (i + 1) 'v'))

lemma length_bigUrls : bigUrls.length = 5000 := by
  simp [bigUrls]

lemma length_bigGuids : bigGuids.length = 5000 := by
  simp [bigGuids]

lemma replicate_mk_inj (c : Char) :
    Function.Injective (fun i => String.mk (List.replicate (i + 1) c)) := by
  intro i j hij
  have h2 := congrArg String.length hij
  simp only [String.length, List.length_replicate] at h2
  omega

lemma single_not_mem_replicate_map (c d : Char) (hne : c ≠ d) :
    String.mk [c] ∉ (List.range 5000).map (fun i => String.mk (List.replicate (i + 1) d)) := by
  intro hmem
  rcases List.mem_map.mp hmem with ⟨i, _, hfi⟩
  have h2 := congrArg String.length hfi
  simp only [String.length, List.length_replicate, List.length_cons,
    List.length_nil] at h2
  have hi0 : i = 0 := by omega
  rw [hi0] at hfi
  have : d = c := by
    have h3 := congrArg String.data hfi
    simpa using h3
  exact hne this.symm

lemma x_not_mem_bigUrls : "x" ∉ bigUrls := by
  have h := single_not_mem_replicate_map 'x' 'u' (by decide)
  simpa [bigUrls] using h

lemma g_not_mem_bigGuids : "g" ∉ bigGuids := by
  have h := single_not_mem_replicate_map 'g' 'v' (by decide)
  simpa [bigGuids] using h

lemma nodup_bigUrls : bigUrls.Nodup :=
  List.Nodup.map (replicate_mk_inj 'u') (List.nodup_range 5000)

lemma nodup_bigGuids : bigGuids.Nodup :=
  List.Nodup.map (replicate_mk_inj 'v') (List.nodup_range 5000)

/-- The state with both seen sets full (5000 distinct entries each). -/
def fullState : PyState := ⟨bigUrls, bigGuids, none⟩

/-- The state after the mark_seen call on `fullState` under the identity
enumeration. -/
def evictedState : PyState := ⟨bigUrls, bigGuids, some "2026-01-01T00:00:00+00:00"⟩

lemma mark_seen_urls (ord : List String → List String) (now : String)
    (st : PyState) (url guid : String) :
    (mark_seen ord now st url guid).seen_urls
      = lastN 5000 (ord (normalize_url url :: st.seen_urls)) := by
  simp only [mark_seen]

lemma mark_seen_guids (ord : List String → List String) (now : String)
    (st : PyState) (url guid : String) :
    (mark_seen ord now st url guid).seen_guids
      = lastN 5000 (ord (if guid != "" then guid :: st.seen_guids else st.seen_guids)) := by
  simp only [mark_seen]

lemma lastN_le (n : Nat) (l : List String) : (lastN n l).length ≤ n := by
  show (l.drop (l.length - n)).length ≤ n
  rw [List.length_drop]
  omega

lemma lastN_5001 (a : String) (l : List String) (hl : l.length = 5000) :
    lastN 5000 (a :: l) = l := by
  show (a :: l).drop ((a :: l).length - 5000) = l
  rw [List.length_cons, hl]
  rfl

lemma mark_seen_id_full :
    mark_seen id "2026-01-01T00:00:00+00:00" fullState "x" "g" = evictedState := by
  have hnx : normalize_url "x" = "x" := by decide
  have hfu : fullState.seen_urls = bigUrls := by dsimp only [fullState]
  have hfg : fullState.seen_guids = bigGuids := by dsimp only [fullState]
  have hc : ("g" != "") = true := rfl
  have hev : evictedState = ⟨bigUrls, bigGuids, some "2026-01-01T00:00:00+00:00"⟩ := by
    dsimp only [evictedState]
  rw [mark_seen, hnx, hfu, hfg, id_eq, id_eq, if_pos hc,
    lastN_5001 "x" bigUrls length_bigUrls, lastN_5001 "g" bigGuids length_bigGuids, hev]

lemma evicted_urls : evictedState.seen_urls = bigUrls := by dsimp only [evictedState]

lemma evicted_guids : evictedState.seen_guids = bigGuids := by dsimp only [evictedState]

/-- C2.  The 5000-entry bound always holds, but eviction is NOT
oldest-first: `mark_seen` rebuilds a Python set and keeps an arbitrary
5000-element slice of its unspecified iteration order, so the just-inserted
URL can be the one evicted.  Concretely, from a duplicate-free state of 5000
seen URLs, marking the fresh URL "x" under the (legitimate) identity
enumeration leaves the seen-URL set without "x". -/
theorem mark_seen_arbitrary_order_evicts_new :
    (∀ ord now st url guid,
      (mark_seen ord now st url guid).seen_urls.length ≤ 5000 ∧
      (mark_seen ord now st url guid).seen_guids.length ≤ 5000) ∧
    ("x" :: bigUrls).Nodup ∧
    (mark_seen id "2026-01-01T00:00:00+00:00" fullState "x" "g").seen_urls = bigUrls ∧
    "x" ∉ (mark_seen id "2026-01-01T00:00:00+00:00" fullState "x" "g").seen_urls := by
  refine ⟨?_, List.nodup_cons.mpr ⟨x_not_mem_bigUrls, nodup_bigUrls⟩, ?_, ?_⟩
  · intro ord now st url guid
    exact ⟨mark_seen_urls ord now st url guid ▸ lastN_le 5000 _,
      mark_seen_guids ord now st url guid ▸ lastN_le 5000 _⟩
  · rw [mark_seen_id_full, evicted_urls]
  · rw [mark_seen_id_full, evicted_urls]
    exact x_not_mem_bigUrls

lemma contains_eq_false_of_not_mem {l : List String} {a : String} (h : a ∉ l) :
    l.contains a = false := by
  rw [List.contains_eq_any_beq]
  simp only [List.any_eq_false]
  intro s hs
  simp only [beq_iff_eq]
  intro he
  exact h (he ▸ hs)

/-- C8.  Dedup soundness is violated by the eviction slip of C2: marking the
fresh pair ("x", "g") on a full (5000/5000, duplicate-free) state under the
legitimate identity enumeration evicts both the just-inserted URL and the
just-inserted guid, so the immediate `is_seen` re-query with the same URL
and the same non-empty guid answers false. -/
theorem dedup_soundness_violated_after_eviction :
    is_seen (mark_seen id "2026-01-01T00:00:00+00:00" fullState "x" "g") "x" "g" = false ∧
    ("x" :: bigUrls).Nodup ∧ ("g" :: bigGuids).Nodup := by
  refine ⟨?_, List.nodup_cons.mpr ⟨x_not_mem_bigUrls, nodup_bigUrls⟩,
    List.nodup_cons.mpr ⟨g_not_mem_bigGuids, nodup_bigGuids⟩⟩
  have hnx : normalize_url "x" = "x" := by decide
  rw [mark_seen_id_full, is_seen, evicted_urls, evicted_guids, hnx,
    contains_eq_false_of_not_mem x_not_mem_bigUrls,
    contains_eq_false_of_not_mem g_not_mem_bigGuids,
    Bool.false_or, Bool.and_false]

/-! ## Timestamps and the recency/year filter (src/run.py) -/

/-- The fields of a Python `datetime` the pipeline observes.
`tzOffsetMin` is the UTC offset in minutes; `none` models a naive value. -/
structure PyDateTime where
  year : Nat
  month : Nat
  day : Nat
  hour : Nat
  minute : Nat
  second : Nat
  micro : Nat
  tzOffsetMin : Option Int
  deriving Repr, DecidableEq

def digitVal (c : Char) : Option Nat :=
  if c.isDigit then some (c.toNat - 48) else none

def read2 : List Char → Option (Nat × List Char)
  | a :: b :: r => do
    let x ← digitVal a
    let y ← digitVal b
    pure (10 * x + y, r)
  | _ => none

def read4 : List Char → Option (Nat × List Char)
  | a :: b :: c :: d :: r => do
    let w ← digitVal a
    let x ← digitVal b
    let y ← digitVal c
    let z ← digitVal d
    pure (1000 * w + 100 * x + 10 * y + z, r)
  | _ => none

def isLeap (y : Nat) : Bool := (y % 4 == 0 && y % 100 != 0) || (y % 400 == 0)

def daysInMonth (y m : Nat) : Nat :=
  match m with
  | 1 => 31 | 2 => if isLeap y then 29 else 28 | 3 => 31 | 4 => 30
  | 5 => 31 | 6 => 30 | 7 => 31 | 8 => 31 | 9 => 30 | 10 => 31
  | 11 => 30 | 12 => 31 | _ => 0

/-- Fractional seconds after the `.`/`,`: 1 to 6 digits, scaled to
microseconds. -/
def readFrac (l : List Char) : Option (Nat × List Char) :=
  let ds := l.takeWhile Char.isDigit
  let rest := l.dropWhile Char.isDigit
  if ds.length = 0 ∨ ds.length > 6 then none
  else some ((ds.foldl (fun acc c => acc * 10 + (c.toNat - 48)) 0) * 10 ^ (6 - ds.length), rest)

/-- `HH[:MM[:SS[.ffffff]]]` with Python's range validation. -/
def parseTime (l : List Char) : Option (Nat × Nat × Nat × Nat × List Char) :=
  match read2 l with
  | none => none
  | some (hh, r1) =>
    if hh ≥ 24 then none
    else
      match r1 with
      | ':' :: r2 =>
        match read2 r2 with
        | none => none
        | some (mm, r3) =>
          if mm ≥ 60 then none
          else
            match r3 with
            | ':' :: r4 =>
              match read2 r4 with
              | none => none
              | some (ss, r5) =>
                if ss ≥ 60 then none
                else
                  match r5 with
                  | '.' :: r6 =>
                    match readFrac r6 with
                    | none => none
                    | some (us, r7) => some (hh, mm, ss, us, r7)
                  | ',' :: r6 =>
                    match readFrac r6 with
                    | none => none
                    | some (us, r7) => some (hh, mm, ss, us, r7)
                  | _ => some (hh, mm, ss, 0, r5)
            | _ => some (hh, mm, 0, 0, r3)
      | _ => some (hh, 0, 0, 0, r1)

/-- A `±HH:MM` UTC offset (the shape produced by `utc_now_iso` and by the
`"Z" -> "+00:00"` replacement), validated like Python's `timezone`. -/
def parseOffset : List Char → Option (Int × List Char)
  | sgn :: r =>
    if sgn = '+' ∨ sgn = '-' then
      match read2 r with
      | some (oh, ':' :: r2) =>
        match read2 r2 with
        | some (om, r3) =>
          if om ≥ 60 ∨ oh * 60 + om ≥ 1440 then none
          else some ((if sgn = '-' then -((oh * 60 + om : Nat) : Int)
                      else ((oh * 60 + om : Nat) : Int)), r3)
        | none => none
      | _ => none
    else none
  | [] => none

/-- The core of `datetime.fromisoformat` (Python 3.11) for the extended
ISO-8601 shapes this pipeline produces and consumes:
`YYYY-MM-DD[<sep>HH[:MM[:SS[.ffffff]]][±HH:MM]]`, with calendar and range
validation.  (Python accepts some further shapes — basic format, longer
offsets — that no caller of this repository produces.) -/
def parse_iso_core (l : List Char) : Option PyDateTime :=
  match read4 l with
  | none => none
  | some (y, r1) =>
    if y = 0 then none
    else
      match r1 with
      | '-' :: r2 =>
        match read2 r2 with
        | none => none
        | some (mo, r3) =>
          if mo = 0 ∨ mo > 12 then none
          else
            match r3 with
            | '-' :: r4 =>
              match read2 r4 with
              | none => none
              | some (d, r5) =>
                if d = 0 ∨ d > daysInMonth y mo then none
                else
                  match r5 with
                  | [] => some ⟨y, mo, d, 0, 0, 0, 0, none⟩
                  | _sep :: r6 =>
                    match parseTime r6 with
                    | none => none
                    | some (hh, mm, ss, us, r7) =>
                      match r7 with
                      | [] => some ⟨y, mo, d, hh, mm, ss, us, none⟩
                      | _ =>
                        match parseOffset r7 with
                        | none => none
                        | some (off, r8) =>
                          match r8 with
                          | [] => some ⟨y, mo, d, hh, mm, ss, us, some off⟩
                          | _ => none
            | _ => none
      | _ => none

/-- `s.replace("Z", "+00:00")` of `parse_iso_dt` (src/run.py line 38). -/
def replaceZ : List Char → List Char
  | [] => []
  | 'Z' :: r => '+' :: '0' :: '0' :: ':' :: '0' :: '0' :: replaceZ r
  | c :: r => c :: replaceZ r

/-- `parse_iso_dt` (src/run.py lines 33-40): `None`/empty gives `None`, the
`"Z"` spelling of UTC is normalized, and any parse error yields `None`. -/
def parse_iso_dt (s : Option String) : Option PyDateTime :=
  match s with
  | none => none
  | some s => if s = "" then none else parse_iso_core (replaceZ s.data)

/-- `re.search(r"/(20\d{2})/", url)` of `extract_year_from_url`
(src/run.py lines 43-51): leftmost slash-delimited `20xx` path segment. -/
def findUrlYear : List Char → Option Nat
  | [] => none
  | c :: r =>
    match c, r with
    | '/', '2' :: '0' :: a :: b :: '/' :: _ =>
      if a.isDigit && b.isDigit then
        some (2000 + 10 * (a.toNat - 48) + (b.toNat - 48))
      else findUrlYear r
    | _, _ => findUrlYear r

/-- `extract_year_from_url` (src/run.py lines 43-51). -/
def extract_year_from_url (url : String) : Option Int :=
  (findUrlYear url.data).map (fun n => (n : Int))

/-- `is_allowed_year` (src/run.py lines 54-62): timestamp year when the
timestamp parses, else URL-embedded year, else `False`. -/
def is_allowed_year (published_at_iso : Option String) (url : String)
    (min_year : Int) : Bool :=
  match parse_iso_dt published_at_iso with
  | some dt => decide ((dt.year : Int) ≥ min_year)
  | none =>
    match extract_year_from_url url with
    | some y => decide (y ≥ min_year)
    | none => false

/-- The orchestrator's year gate (src/run.py line 203): the item is skipped
iff `strict_year and not is_allowed_year(...)`; this is the acceptance
side of that test. -/
def yearFilterAccepts (strict : Bool) (published_at_iso : Option String)
    (u : String) (min_year : Int) : Bool :=
  !(strict && !(is_allowed_year published_at_iso u min_year))

/-- The three-step recency/year contract exactly as the specification words
it (spec section 4.3 / claim C1): (a) a parsing timestamp decides by its
year; (b) otherwise a URL-embedded year decides; (c) otherwise strict mode
rejects and non-strict mode accepts.  Steps (a) and (b) apply in both
modes. -/
def spec_year_contract (strict : Bool) (published_at_iso : Option String)
    (u : String) (min_year : Int) : Bool :=
  match parse_iso_dt published_at_iso with
  | some dt => decide ((dt.year : Int) ≥ min_year)
  | none =>
    match extract_year_from_url u with
    | some y => decide (y ≥ min_year)
    | none => !strict

example : parse_iso_dt (some "2020-01-01T00:00:00+00:00")
    = some ⟨2020, 1, 1, 0, 0, 0, 0, some 0⟩ := by decide
example : parse_iso_dt (some "2025-03-27T14:30:00Z")
    = some ⟨2025, 3, 27, 14, 30, 0, 0, some 0⟩ := by decide
example : parse_iso_dt (some "not a date") = none := by decide
example : parse_iso_dt none = none := by decide
example : extract_year_from_url "https://techcrunch.com/2025/03/27/post" = some 2025 := by decide
example : extract_year_from_url "https://a.com/article-2027" = none := by decide
example : is_allowed_year (some "2025-01-01T00:00:00+00:00") "https://a.com/2027/x/" 2026 = false := by
  decide

/-- C1 counterexample: with the strict flag off, an item whose timestamp
parses to year 2020 (< the configured minimum 2026) is accepted by the
code, while the claim's step (a) requires it to be rejected. -/
theorem year_gate_claim_cex :
    parse_iso_dt (some "2020-01-01T00:00:00+00:00")
      = some ⟨2020, 1, 1, 0, 0, 0, 0, some 0⟩ ∧
    yearFilterAccepts false (some "2020-01-01T00:00:00+00:00") "" 2026 = true ∧
    spec_year_contract false (some "2020-01-01T00:00:00+00:00") "" 2026 = false := by
  exact ⟨by decide, rfl, by decide⟩

/-- C1 (amended).  In strict mode the year gate implements the spec's
three-step contract exactly (timestamp year, else URL-embedded `/20xx/`
segment, else reject); with the strict flag off the gate is bypassed
entirely and every item is accepted, whether or not a year is
determinable. -/
theorem year_gate_amended : ∀ published_at_iso url min_year,
    yearFilterAccepts true published_at_iso url min_year
      = spec_year_contract true published_at_iso url min_year ∧
    yearFilterAccepts false published_at_iso url min_year = true := by
  intro published_at_iso url min_year
  constructor
  · show (!(true && !(is_allowed_year published_at_iso url min_year))) = _
    rw [Bool.true_and, Bool.not_not]
    unfold is_allowed_year spec_year_contract
    cases parse_iso_dt published_at_iso with
    | some dt => rfl
    | none =>
      cases extract_year_from_url url with
      | some y => rfl
      | none => rfl
  · rfl

/-! ## Datetime comparison (Python `datetime.__le__`) -/

/-- Days from civil date (proleptic Gregorian), the standard era-based
conversion; all intermediate divisions have nonnegative operands for the
validated dates (`year ≥ 1`) produced by `parse_iso_core`. -/
def days_from_civil (y m d : Int) : Int :=
  let y2 := if m ≤ 2 then y - 1 else y
  let era := (if 0 ≤ y2 then y2 else y2 - 399) / 400
  let yoe := y2 - era * 400
  let doy := (153 * (if 2 < m then m - 3 else m + 9) + 2) / 5 + d - 1
  let doe := yoe * 365 + yoe / 4 - yoe / 100 + doy
  era * 146097 + doe - 719468

/-- The instant of a datetime ignoring its offset, in microseconds since the
Unix epoch. -/
def naiveEpochMicros (dt : PyDateTime) : Int :=
  (days_from_civil dt.year dt.month dt.day * 86400
    + (dt.hour : Int) * 3600 + (dt.minute : Int) * 60 + (dt.second : Int)) * 1000000
    + (dt.micro : Int)

/-- Python `a <= b` on datetimes: naive pairs compare field-lexicographically
(equivalently by `naiveEpochMicros`), aware pairs compare as instants, and a
naive/aware mix raises `TypeError` (`none`). -/
def pyDtLe (a b : PyDateTime) : Option Bool :=
  match a.tzOffsetMin, b.tzOffsetMin with
  | none, none => some (decide (naiveEpochMicros a ≤ naiveEpochMicros b))
  | some oa, some ob =>
    some (decide (naiveEpochMicros a - oa * 60000000
      ≤ naiveEpochMicros b - ob * 60000000))
  | _, _ => none

example : pyDtLe ⟨2026, 5, 1, 0, 0, 0, 0, some 0⟩ ⟨2026, 6, 1, 0, 0, 0, 0, some 0⟩
    = some true := by decide
example : pyDtLe ⟨2026, 6, 1, 0, 0, 0, 0, some 0⟩ ⟨2026, 5, 1, 0, 0, 0, 0, some 0⟩
    = some false := by decide
example : pyDtLe ⟨2026, 5, 1, 0, 0, 0, 0, none⟩ ⟨2026, 6, 1, 0, 0, 0, 0, some 0⟩
    = none := by decide

/-! ## Pipeline orchestrator (src/run.py `main`, lines 183-296) -/

/-- The enrichment record `DealExtract` (src/groq_ai.py lines 7-23);
the float fields (`amount_usd`, `confidence`) are carried as rationals. -/
structure DealExtract where
  company : Option String := none
  country : Option String := none
  stage : Option String := none
  amount_usd : Option Rat := none
  investors : List String := []
  sector : Option String := none
  business_model : Option String := none
  signals : List String := []
  ru_one_line : Option String := none
  ru_why_important : List String := []
  ru_deal_angles : List String := []
  ru_watchouts : List String := []
  confidence : Option Rat := none

/-- `FeedItem` (src/ingest.py lines 8-15). -/
structure FeedItem where
  source : String
  title : String
  url : String
  guid : String
  published_at : Option String
  summary : String
  deriving Repr, DecidableEq

/-- The external collaborators of one item iteration, as oracles:
`fetch` is `fetch_article_text` (src/extract.py), `groq` is `groq_extract`
(src/groq_ai.py) applied to (title, url, source, text, fallback summary),
`send_signal` is `format_signal_ru` + `send_message` for the primary post
applied to (title, url, deal, score) and returning the message id, and
`send_note` is `format_note_ru` + `send_message` for the secondary reply
applied to (deal, score, reasons, reply-to id).  `Except.error` models the
collaborator raising. -/
structure Collab where
  fetch : String → Except String String
  groq : String → String → String → String → String → Except String DealExtract
  send_signal : String → String → DealExtract → Int → Except String Int
  send_note : DealExtract → Int → List String → Int → Except String Unit

/-- The environment-derived controls of `main` (src/run.py lines 165-173):
`MAX_POSTS_PER_RUN`, `MIN_PUBLISHED_YEAR`, `YEAR_FILTER_STRICT`, and the
parsed (or fallback `datetime(2000,1,1,utc)`) last-run timestamp. -/
structure RunEnv where
  max_posts : Nat
  min_year : Int
  strict_year : Bool
  last_run_dt : PyDateTime

/-- `datetime(2000, 1, 1, tzinfo=timezone.utc)` (src/run.py line 173). -/
def fallbackLastRun : PyDateTime := ⟨2000, 1, 1, 0, 0, 0, 0, some 0⟩

/-- The counters of `main` (src/run.py lines 175-181). -/
structure Counters where
  processed_new : Nat := 0
  posted : Nat := 0
  skipped_seen : Nat := 0
  skipped_not_newer_than_last_run : Nat := 0
  skipped_year : Nat := 0
  deriving Repr, DecidableEq

/-- How one item iteration of the `for it in items` loop ended. -/
inductive ItemOutcome where
  | seenSkip
  | oldSkip
  | yearSkip
  | groqErr
  | primarySendErr
  | published
  | cmpCrash
  deriving Repr, DecidableEq

/-- The running mutable data of `main`: the seen-set state, the rows of the
`deals` table (keyed by canonical URL, insert-or-ignore), and the
counters. -/
structure RunData where
  state : PyState
  deals : List String
  counters : Counters
  deriving Repr, DecidableEq

/-- Steps 1-7 of the loop body after all three skip gates have been passed
(src/run.py lines 207-288): count the item processed, fetch text (failure
gives ""), enrich (failure: continue, nothing marked), score, post the
signal (failure: continue, nothing marked), post the reply (failure
swallowed), insert-or-ignore the deal row, mark seen, count posted. -/
def fetchedText (cb : Collab) (u : String) : String :=
  match cb.fetch u with
  | Except.ok t => t
  | Except.error _ => ""

def processBody (cb : Collab) (ord : List String → List String) (now : String)
    (rd : RunData) (it : FeedItem) : RunData × ItemOutcome :=
  let u := normalize_url it.url
  let cnt1 := { rd.counters with processed_new := rd.counters.processed_new + 1 }
  match cb.groq it.title u it.source (fetchedText cb u) it.summary with
  | Except.error _ => ({ rd with counters := cnt1 }, ItemOutcome.groqErr)
  | Except.ok deal =>
    let sr := compute_score deal.country deal.stage deal.sector
      deal.business_model deal.signals deal.investors
    match cb.send_signal it.title u deal sr.score with
    | Except.error _ => ({ rd with counters := cnt1 }, ItemOutcome.primarySendErr)
    | Except.ok msg_id =>
      let _ := cb.send_note deal sr.score sr.reasons msg_id
      let deals2 := if rd.deals.contains u then rd.deals else rd.deals ++ [u]
      let st2 := mark_seen ord now rd.state u it.guid
      ({ state := st2, deals := deals2,
         counters := { cnt1 with posted := cnt1.posted + 1 } },
       ItemOutcome.published)

/-- The "newer than the last run" gate (src/run.py lines 197-200):
`some true` means the item is skipped as old, `some false` means it passes
(including when its timestamp does not parse), `none` means the Python
comparison `it_dt <= last_run_dt` raises (naive/aware mix). -/
def oldGate (env : RunEnv) (it : FeedItem) : Option Bool :=
  match parse_iso_dt it.published_at with
  | none => some false
  | some it_dt => pyDtLe it_dt env.last_run_dt

/-- One iteration of the item loop of `main` (src/run.py lines 189-288):
dedup gate, newer-than-last-run gate (a naive/aware comparison raises,
aborting the run), strict-mode year gate, then the processing body. -/
def processItem (env : RunEnv) (cb : Collab) (ord : List String → List String)
    (now : String) (rd : RunData) (it : FeedItem) : RunData × ItemOutcome :=
  let u := normalize_url it.url
  if is_seen rd.state u it.guid then
    ({ rd with counters :=
        { rd.counters with skipped_seen := rd.counters.skipped_seen + 1 } },
     ItemOutcome.seenSkip)
  else
    match oldGate env it with
    | none => (rd, ItemOutcome.cmpCrash)
    | some true =>
      ({ rd with counters :=
          { rd.counters with skipped_not_newer_than_last_run :=
              rd.counters.skipped_not_newer_than_last_run + 1 } },
       ItemOutcome.oldSkip)
    | some false =>
      if env.strict_year && !(is_allowed_year it.published_at u env.min_year) then
        ({ rd with counters :=
            { rd.counters with skipped_year := rd.counters.skipped_year + 1 } },
         ItemOutcome.yearSkip)
      else
        processBody cb ord now rd it

/-- The item loop over one source with the posted-cap break
(src/run.py lines 189-291); a `cmpCrash` aborts (exception propagates).
Only a published item reaches the cap check (line 290) — every skip path
`continue`s past it. -/
def runItems (env : RunEnv) (cb : Collab) (ord : List String → List String)
    (now : String) : RunData → List FeedItem → Except RunData RunData
  | rd, [] => Except.ok rd
  | rd, it :: rest =>
    let (rd2, out) := processItem env cb ord now rd it
    match out with
    | ItemOutcome.cmpCrash => Except.error rd2
    | ItemOutcome.published =>
      if rd2.counters.posted ≥ env.max_posts then Except.ok rd2
      else runItems env cb ord now rd2 rest
    | _ => runItems env cb ord now rd2 rest

/-- C5.  When the enrichment collaborator raises for an item that passed all
three gates, nothing is marked seen and nothing is persisted (state and
deals unchanged), the processed counter increments, the posted counter does
not, and the iteration ends in the non-fatal `groqErr` outcome (the loop
continues with the next item). -/
theorem groq_failure_retry (env : RunEnv) (cb : Collab)
    (ord : List String → List String) (now : String) (rd : RunData)
    (it : FeedItem) (emsg : String)
    (hseen : is_seen rd.state (normalize_url it.url) it.guid = false)
    (hold : oldGate env it = some false)
    (hyear : (env.strict_year
      && !(is_allowed_year it.published_at (normalize_url it.url) env.min_year)) = false)
    (hgroq : cb.groq it.title (normalize_url it.url) it.source
      (fetchedText cb (normalize_url it.url)) it.summary = Except.error emsg) :
    processItem env cb ord now rd it =
      ({ rd with counters :=
          { rd.counters with processed_new := rd.counters.processed_new + 1 } },
       ItemOutcome.groqErr) := by
  simp only [processItem, processBody, hseen, hold, hyear, hgroq,
    Bool.false_eq_true, if_false]

/-- A collaborator whose enrichment call always fails. -/
def groqFailCollab : Collab :=
  { fetch := fun _ => Except.ok "body text"
    groq := fun _ _ _ _ _ => Except.error "rate limited"
    send_signal := fun _ _ _ _ => Except.ok 1
    send_note := fun _ _ _ _ => Except.ok () }

def witEnv : RunEnv := ⟨2, 2026, true, fallbackLastRun⟩

def witItem : FeedItem :=
  ⟨"TechCrunch", "Startup raises", "https://a.com/2026/01/x/", "guid1",
   some "2026-02-01T00:00:00+00:00", "summary"⟩

def emptyRd : RunData := ⟨⟨[], [], none⟩, [], {}⟩

theorem groq_failure_retry_witness :
    processItem witEnv groqFailCollab id "2026-03-01T00:00:00+00:00" emptyRd witItem =
      ({ emptyRd with counters :=
          { emptyRd.counters with processed_new := 1 } },
       ItemOutcome.groqErr) :=
  groq_failure_retry witEnv groqFailCollab id "2026-03-01T00:00:00+00:00" emptyRd
    witItem "rate limited" (by decide) (by decide) (by decide) rfl

/-- C4 (amended).  For an item past all three gates whose enrichment
succeeds: (a) if the PRIMARY signal message fails to send, the run
continues with nothing marked seen, nothing persisted, and no posted
increment (the item is retried next run); (b) if the primary send succeeds,
the iteration marks seen, persists, and counts posted REGARDLESS of the
secondary reply message's outcome — a reply failure is swallowed
(`except: pass`), it does not prevent mark-seen or the posted increment. -/
theorem publication_failure_amended (env : RunEnv) (cb : Collab)
    (ord : List String → List String) (now : String) (rd : RunData)
    (it : FeedItem) (deal : DealExtract)
    (hseen : is_seen rd.state (normalize_url it.url) it.guid = false)
    (hold : oldGate env it = some false)
    (hyear : (env.strict_year
      && !(is_allowed_year it.published_at (normalize_url it.url) env.min_year)) = false)
    (hgroq : cb.groq it.title (normalize_url it.url) it.source
      (fetchedText cb (normalize_url it.url)) it.summary = Except.ok deal) :
    (∀ emsg, cb.send_signal it.title (normalize_url it.url) deal
        (compute_score deal.country deal.stage deal.sector deal.business_model
          deal.signals deal.investors).score = Except.error emsg →
      processItem env cb ord now rd it =
        ({ rd with counters :=
            { rd.counters with processed_new := rd.counters.processed_new + 1 } },
         ItemOutcome.primarySendErr)) ∧
    (∀ msg_id, cb.send_signal it.title (normalize_url it.url) deal
        (compute_score deal.country deal.stage deal.sector deal.business_model
          deal.signals deal.investors).score = Except.ok msg_id →
      processItem env cb ord now rd it =
        ({ state := mark_seen ord now rd.state (normalize_url it.url) it.guid,
           deals := if rd.deals.contains (normalize_url it.url) then rd.deals
                    else rd.deals ++ [normalize_url it.url],
           counters := { rd.counters with
             processed_new := rd.counters.processed_new + 1,
             posted := rd.counters.posted + 1 } },
         ItemOutcome.published)) := by
  constructor
  · intro emsg hsend
    simp only [processItem, processBody, hseen, hold, hyear, hgroq, hsend,
      Bool.false_eq_true, if_false]
  · intro msg_id hsend
    simp only [processItem, processBody, hseen, hold, hyear, hgroq, hsend,
      Bool.false_eq_true, if_false]

/-- A collaborator whose primary send succeeds and whose reply send fails. -/
def replyFailCollab : Collab :=
  { fetch := fun _ => Except.ok "body text"
    groq := fun _ _ _ _ _ => Except.ok {}
    send_signal := fun _ _ _ _ => Except.ok 7
    send_note := fun _ _ _ _ => Except.error "reply failed" }

def replyFailItem : FeedItem :=
  ⟨"TechCrunch", "Fintech round", "https://b.com/2026/02/y/", "guid2",
   some "2026-02-02T00:00:00+00:00", "summary2"⟩

/-- C4 counterexample: the secondary reply message fails
(`send_note` errors on exactly the call the run makes), yet the run does
NOT skip the item: it is published, the posted counter increments, and the
item IS marked seen — the claim's "for either the primary or the secondary
message: continue without marking seen, without posted increment" is false
for the secondary message. -/
theorem reply_failure_still_posts :
    (replyFailCollab.send_note {} (compute_score none none none none [] []).score [] 7
      = Except.error "reply failed") ∧
    (processItem witEnv replyFailCollab id "2026-03-01T00:00:00+00:00" emptyRd
        replyFailItem).2 = ItemOutcome.published ∧
    (processItem witEnv replyFailCollab id "2026-03-01T00:00:00+00:00" emptyRd
        replyFailItem).1.counters.posted = 1 ∧
    is_seen (processItem witEnv replyFailCollab id "2026-03-01T00:00:00+00:00" emptyRd
        replyFailItem).1.state (normalize_url replyFailItem.url) replyFailItem.guid
      = true := by
  refine ⟨rfl, ?_, ?_, ?_⟩ <;> decide

/-- A collaborator whose primary signal send fails. -/
def primaryFailCollab : Collab :=
  { fetch := fun _ => Except.ok "body text"
    groq := fun _ _ _ _ _ => Except.ok {}
    send_signal := fun _ _ _ _ => Except.error "telegram down"
    send_note := fun _ _ _ _ => Except.ok () }

theorem publication_failure_witness :
    processItem witEnv primaryFailCollab id "2026-03-01T00:00:00+00:00" emptyRd
        replyFailItem =
      ({ emptyRd with counters :=
          { emptyRd.counters with processed_new := 1 } },
       ItemOutcome.primarySendErr) :=
  (publication_failure_amended witEnv primaryFailCollab id "2026-03-01T00:00:00+00:00"
    emptyRd replyFailItem {} (by decide) (by decide) (by decide) rfl).1
    "telegram down" rfl

/-- C3 (amended).  The per-item gate order of the orchestrator is: dedup
check first (a hit mutates nothing and counts nothing processed), then the
"not newer than the last run" timestamp gate, then the year gate (active in
strict mode only), and every item surviving those three gates counts as
processed.  There is NO empty-canonical-URL rejection: the processed count
in (iv) increments with no condition on `normalize_url it.url` being
non-empty. -/
theorem process_item_order_amended (env : RunEnv) (cb : Collab)
    (ord : List String → List String) (now : String) (rd : RunData)
    (it : FeedItem) :
    (is_seen rd.state (normalize_url it.url) it.guid = true →
      processItem env cb ord now rd it =
        ({ rd with counters :=
            { rd.counters with skipped_seen := rd.counters.skipped_seen + 1 } },
         ItemOutcome.seenSkip)) ∧
    (is_seen rd.state (normalize_url it.url) it.guid = false →
     oldGate env it = some true →
      processItem env cb ord now rd it =
        ({ rd with counters :=
            { rd.counters with skipped_not_newer_than_last_run :=
                rd.counters.skipped_not_newer_than_last_run + 1 } },
         ItemOutcome.oldSkip)) ∧
    (is_seen rd.state (normalize_url it.url) it.guid = false →
     oldGate env it = some false →
     (env.strict_year
       && !(is_allowed_year it.published_at (normalize_url it.url) env.min_year)) = true →
      processItem env cb ord now rd it =
        ({ rd with counters :=
            { rd.counters with skipped_year := rd.counters.skipped_year + 1 } },
         ItemOutcome.yearSkip)) ∧
    (is_seen rd.state (normalize_url it.url) it.guid = false →
     oldGate env it = some false →
     (env.strict_year
       && !(is_allowed_year it.published_at (normalize_url it.url) env.min_year)) = false →
      (processItem env cb ord now rd it).1.counters.processed_new
        = rd.counters.processed_new + 1) := by
  refine ⟨?_, ?_, ?_, ?_⟩
  · intro hseen
    simp only [processItem, hseen, if_true]
  · intro hseen hold
    simp only [processItem, hseen, hold, Bool.false_eq_true, if_false]
  · intro hseen hold hyear
    simp only [processItem, processBody, hseen, hold, hyear,
      Bool.false_eq_true, if_false, if_true]
  · intro hseen hold hyear
    simp only [processItem, processBody, hseen, hold, hyear,
      Bool.false_eq_true, if_false]
    rcases hg : cb.groq it.title (normalize_url it.url) it.source
      (fetchedText cb (normalize_url it.url)) it.summary with e | deal
    · simp only [hg]
    · simp only [hg]
      rcases hs : cb.send_signal it.title (normalize_url it.url) deal
        (compute_score deal.country deal.stage deal.sector deal.business_model
          deal.signals deal.investors).score with e | m
      · simp only [hs]
      · simp only [hs]

/-- An item whose stored URL "?" normalizes to the empty canonical URL in
the orchestrator (its first-pass normalization in the feed parser was
"??" -> "?", and `normalize_url` is not idempotent). -/
def emptyUrlItem : FeedItem := ⟨"S", "title", "?", "guid9", none, "sum"⟩

/-- Non-strict environment with a June 2026 last run. -/
def laxEnv : RunEnv := ⟨2, 2026, false, ⟨2026, 6, 1, 0, 0, 0, 0, some 0⟩⟩

theorem process_item_order_witness :
    (processItem laxEnv groqFailCollab id "2026-07-01T00:00:00+00:00" emptyRd
        emptyUrlItem).1.counters.processed_new = 1 ∧
    normalize_url emptyUrlItem.url = "" :=
  ⟨(process_item_order_amended laxEnv groqFailCollab id "2026-07-01T00:00:00+00:00"
      emptyRd emptyUrlItem).2.2.2 (by decide) (by decide) (by decide),
   by decide⟩

/-- Strict environment whose last successful run is June 2026. -/
def strictJuneEnv : RunEnv := ⟨2, 2026, true, ⟨2026, 6, 1, 0, 0, 0, 0, some 0⟩⟩

/-- A fresh, valid May-2026 item: unseen, non-empty canonical URL, year
2026 ≥ the 2026 minimum. -/
def mayItem : FeedItem :=
  ⟨"S", "May round", "https://c.com/2026/05/z/", "guid5",
   some "2026-05-01T00:00:00+00:00", "sum"⟩

/-- C3 counterexample: an item that passes all three checks of the claim
(canonical URL non-empty, dedup miss, year filter accepts) is nevertheless
rejected by a fourth gate the claim denies exists — the "not newer than the
last run" timestamp gate — and does NOT count as processed. -/
theorem process_item_claim_cex :
    normalize_url mayItem.url ≠ "" ∧
    is_seen emptyRd.state (normalize_url mayItem.url) mayItem.guid = false ∧
    yearFilterAccepts strictJuneEnv.strict_year mayItem.published_at
      (normalize_url mayItem.url) strictJuneEnv.min_year = true ∧
    processItem strictJuneEnv groqFailCollab id "2026-07-01T00:00:00+00:00" emptyRd
        mayItem =
      ({ emptyRd with counters :=
          { emptyRd.counters with skipped_not_newer_than_last_run := 1 } },
       ItemOutcome.oldSkip) := by
  refine ⟨?_, ?_, ?_, ?_⟩ <;> decide

/-! ## State persistence (`save_state`, src/storage.py lines 53-56) -/

/-- A JSON rendering of the run state; for the atomicity claim only its
identity as "the complete new content" matters. -/
def stateJson (st : PyState) : String :=
  let strs := fun (l : List String) =>
    "[" ++ String.intercalate ", " (l.map (fun u => "\"" ++ u ++ "\"")) ++ "]"
  "\x7b\"seen_urls\": " ++ strs st.seen_urls
    ++ ", \"seen_guids\": " ++ strs st.seen_guids
    ++ ", \"last_run_utc\": "
    ++ (match st.last_run_utc with
        | none => "null"
        | some t => "\"" ++ t ++ "\"")
    ++ "\x7d"

/-- The file-system effects `save_state` can have on the state path. -/
inductive FsStep where
  | openTrunc
  | writeAll (content : String)
  deriving Repr, DecidableEq

/-- `save_state` (src/storage.py lines 53-56) opens the STATE FILE ITSELF in
"w" mode — truncating it in place — and then writes the serialized state
into it.  There is no temporary file and no rename step in its body. -/
def save_state_steps (st : PyState) : List FsStep :=
  [FsStep.openTrunc, FsStep.writeAll (stateJson st)]

/-- Effect of one step on the state file's content (`none` = absent); both
steps clobber whatever was there before. -/
def applyFsStep (_prev : Option String) : FsStep → Option String
  | FsStep.openTrunc => some ""
  | FsStep.writeAll s => some s

def runFsSteps (file : Option String) (steps : List FsStep) : Option String :=
  steps.foldl applyFsStep file

/-- The state file's content if the process dies after the first `k` steps
of `save_state`. -/
def crashContent (prev : Option String) (st : PyState) (k : Nat) : Option String :=
  runFsSteps prev ((save_state_steps st).take k)

/-- A previously persisted, valid state file. -/
def prevStateFile : Option String :=
  some (stateJson ⟨["https://old.example/a"], ["g0"], some "2026-01-01T00:00:00+00:00"⟩)

def newState : PyState :=
  ⟨["https://new.example/b"], ["g1"], some "2026-02-01T00:00:00+00:00"⟩

/-- C9.  `save_state` is NOT all-or-nothing: its step list is exactly
truncate-the-target-then-write (no temporary location, no atomic replace),
so a crash between the truncating `open(path, "w")` and the completed
`json.dump` leaves the state file empty — neither the previous valid
content nor the new content survives. -/
theorem save_state_not_atomic :
    save_state_steps newState
      = [FsStep.openTrunc, FsStep.writeAll (stateJson newState)] ∧
    crashContent prevStateFile newState 2 = some (stateJson newState) ∧
    crashContent prevStateFile newState 1 = some "" ∧
    crashContent prevStateFile newState 1 ≠ prevStateFile ∧
    crashContent prevStateFile newState 1 ≠ some (stateJson newState) := by
  refine ⟨rfl, rfl, rfl, ?_, ?_⟩ <;> decide

/-! ## Idempotence analysis of `normalize_url` (src/utils.py)

The scanner layer below is generic in the attempt function `t`; `GoodTry`
captures the three facts every one of the three patterns satisfies, and the
later lemmas show a completed scan leaves no further match for its own
pattern and that later scans and the trailing-separator trim cannot create
one. -/

lemma splitAtChar_eq_some {ch : Char} : ∀ {l a r : List Char},
    splitAtChar ch l = (a, some r) → l = a ++ ch :: r ∧ ch ∉ a := by
  intro l
  induction l with
  | nil => intro a r h; simp [splitAtChar] at h
  | cons c cs ih =>
    intro a r h
    by_cases hc : c = ch
    · subst hc
      simp [splitAtChar] at h
      obtain ⟨ha, hr⟩ := h
      subst ha; subst hr; simp
    · rw [splitAtChar, if_neg (by simpa using hc)] at h
      obtain ⟨ha, hr⟩ := Prod.mk.injEq .. ▸ h
      rcases hsplit : splitAtChar ch cs with ⟨a0, r0⟩
      rw [hsplit] at ha hr
      dsimp at ha hr
      subst ha
      rcases r0 with _ | r0
      · exact absurd hr (by simp)
      · obtain ⟨h1, h2⟩ := ih (a := a0) (r := r) (by rw [hsplit]; simpa using hr)
        constructor
        · rw [h1]; rfl
        · intro hm
          rcases List.mem_cons.mp hm with h | h
          · exact absurd h.symm hc
          · exact h2 h

lemma splitAtChar_eq_none {ch : Char} : ∀ {l a : List Char},
    splitAtChar ch l = (a, none) → a = l ∧ ch ∉ l := by
  intro l
  induction l with
  | nil =>
    intro a h
    simp [splitAtChar] at h
    subst h
    simp
  | cons c cs ih =>
    intro a h
    by_cases hc : c = ch
    · subst hc
      simp [splitAtChar] at h
    · rw [splitAtChar, if_neg (by simpa using hc)] at h
      rcases hsplit : splitAtChar ch cs with ⟨a0, r0⟩
      rw [hsplit] at h
      obtain ⟨ha, hr⟩ := Prod.mk.injEq .. ▸ h
      dsimp at ha hr
      rcases r0 with _ | r0
      · obtain ⟨h1, h2⟩ := ih hsplit
        subst ha
        constructor
        · rw [h1]
        · intro hm
          rcases List.mem_cons.mp hm with h | h
          · exact absurd h.symm hc
          · exact h2 h
      · exact absurd hr (by simp)

lemma spanNe_eq {ch : Char} : ∀ {l b rest : List Char},
    spanNe ch l = (b, rest) →
    l = b ++ rest ∧ ch ∉ b ∧ (rest = [] ∨ ∃ s, rest = ch :: s) := by
  intro l
  induction l with
  | nil =>
    intro b rest h
    simp [spanNe] at h
    obtain ⟨hb, hr⟩ := h
    subst hb; subst hr
    simp
  | cons c cs ih =>
    intro b rest h
    by_cases hc : c = ch
    · subst hc
      simp [spanNe] at h
      obtain ⟨hb, hr⟩ := h
      subst hb; subst hr
      exact ⟨rfl, by simp, Or.inr ⟨cs, rfl⟩⟩
    · rw [spanNe, if_neg (by simpa using hc)] at h
      rcases hsplit : spanNe ch cs with ⟨b0, r0⟩
      rw [hsplit] at h
      obtain ⟨hb, hr⟩ := Prod.mk.injEq .. ▸ h
      dsimp at hb hr
      subst hb; subst hr
      obtain ⟨h1, h2, h3⟩ := ih hsplit
      refine ⟨by rw [h1]; rfl, ?_, h3⟩
      intro hm
      rcases List.mem_cons.mp hm with h | h
      · exact absurd h.symm hc
      · exact h2 h

lemma splitAtChar_append {ch : Char} : ∀ {a : List Char} (r : List Char),
    ch ∉ a → splitAtChar ch (a ++ ch :: r) = (a, some r) := by
  intro a
  induction a with
  | nil => intro r _; simp [splitAtChar]
  | cons c cs ih =>
    intro r hm
    have hc : ¬ c = ch := fun h => hm (h ▸ List.mem_cons_self c cs)
    have hcs : ch ∉ cs := fun h => hm (List.mem_cons_of_mem c h)
    rw [List.cons_append, splitAtChar, if_neg (by simpa using hc), ih r hcs]

lemma spanNe_append {ch : Char} : ∀ {b rest : List Char},
    ch ∉ b → (rest = [] ∨ ∃ s, rest = ch :: s) →
    spanNe ch (b ++ rest) = (b, rest) := by
  intro b
  induction b with
  | nil =>
    intro rest _ hrest
    rcases hrest with h | ⟨s, h⟩
    · subst h; rfl
    · subst h; simp [spanNe]
  | cons c cs ih =>
    intro rest hm hrest
    have hc : ¬ c = ch := fun h => hm (h ▸ List.mem_cons_self c cs)
    have hcs : ch ∉ cs := fun h => hm (List.mem_cons_of_mem c h)
    rw [List.cons_append, spanNe, if_neg (by simpa using hc), ih hcs hrest]

lemma stripFront_eq_some : ∀ {k l r : List Char},
    stripFront k l = some r → l = k ++ r := by
  intro k
  induction k with
  | nil => intro l r h; simp [stripFront] at h; simp [h]
  | cons c cs ih =>
    intro l r h
    rcases l with _ | ⟨d, ds⟩
    · simp [stripFront] at h
    · by_cases hd : d = c
      · subst hd
        rw [stripFront, if_pos (by simp)] at h
        rw [List.cons_append, ih h]
      · rw [stripFront, if_neg (by simpa using hd)] at h
        exact absurd h (by simp)

lemma stripFront_append : ∀ (k r : List Char), stripFront k (k ++ r) = some r := by
  intro k
  induction k with
  | nil => intro r; rfl
  | cons c cs ih => intro r; rw [List.cons_append, stripFront, if_pos (by simp), ih]

/-- The facts shared by all three pattern-attempt functions that the
generic scanner lemmas need: a successful attempt consumes a front of the
input (the remainder is a suffix), the remainder is empty or `&`-headed,
and the consumed front contains the input's first `=` with a non-`&`
character right after it. -/
structure GoodTry (t : List Char → Option (List Char)) : Prop where
  sfx : ∀ {r r' : List Char}, t r = some r' → r' <:+ r
  amp : ∀ {r r' : List Char}, t r = some r' → r' = [] ∨ ∃ s, r' = '&' :: s
  eqSplit : ∀ {r r' : List Char}, t r = some r' →
    ∃ x c ys, r = x ++ '=' :: c :: ys ∧ '=' ∉ x ∧ c ≠ '&'

lemma tryUtm_eq_some {l rest : List Char} (h : tryUtm l = some rest) :
    ∃ a b, l = 'u' :: 't' :: 'm' :: '_' :: (a ++ '=' :: (b ++ rest)) ∧
      a ≠ [] ∧ '=' ∉ a ∧ b ≠ [] ∧ '&' ∉ b ∧ (rest = [] ∨ ∃ s, rest = '&' :: s) := by
  rw [tryUtm] at h
  rcases hsf : stripFront utmChars l with _ | r
  · rw [hsf] at h; exact absurd h (by simp)
  · rw [hsf] at h
    dsimp only at h
    rcases hsp : splitAtChar '=' r with ⟨a, _ | r2⟩
    · rw [hsp] at h; exact absurd h (by simp)
    · rcases a with _ | ⟨a0, a'⟩
      · rw [hsp] at h; exact absurd h (by simp)
      · rw [hsp] at h
        dsimp only at h
        rcases hsn : spanNe '&' r2 with ⟨b, rest'⟩
        rcases b with _ | ⟨b0, b'⟩
        · rw [hsn] at h; exact absurd h (by simp)
        · rw [hsn] at h
          dsimp only at h
          have hrest : rest' = rest := by simpa using h
          subst hrest
          obtain ⟨hr1, hr2⟩ := splitAtChar_eq_some hsp
          obtain ⟨hs1, hs2, hs3⟩ := spanNe_eq hsn
          refine ⟨a0 :: a', b0 :: b', ?_, by simp, hr2, by simp, hs2, hs3⟩
          rw [stripFront_eq_some hsf, hr1, hs1]
          rfl

lemma tryUtm_eval {a b rest : List Char}
    (ha : a ≠ []) (ha2 : '=' ∉ a) (hb : b ≠ []) (hb2 : '&' ∉ b)
    (hrest : rest = [] ∨ ∃ s, rest = '&' :: s) :
    tryUtm ('u' :: 't' :: 'm' :: '_' :: (a ++ '=' :: (b ++ rest))) = some rest := by
  rw [tryUtm]
  have hsf : stripFront utmChars ('u' :: 't' :: 'm' :: '_' :: (a ++ '=' :: (b ++ rest)))
      = some (a ++ '=' :: (b ++ rest)) := stripFront_append utmChars _
  rw [hsf]
  dsimp only
  rw [splitAtChar_append _ ha2]
  rcases a with _ | ⟨a0, a'⟩
  · exact absurd rfl ha
  · dsimp only
    rw [spanNe_append hb2 hrest]
    rcases b with _ | ⟨b0, b'⟩
    · exact absurd rfl hb
    · rfl

lemma tryKey_eq_some {k l rest : List Char} (h : tryKey k l = some rest) :
    ∃ b, l = k ++ '=' :: (b ++ rest) ∧ b ≠ [] ∧ '&' ∉ b ∧
      (rest = [] ∨ ∃ s, rest = '&' :: s) := by
  rw [tryKey] at h
  rcases hsf : stripFront (k ++ ['=']) l with _ | r2
  · rw [hsf] at h; exact absurd h (by simp)
  · rw [hsf] at h
    dsimp only at h
    rcases hsn : spanNe '&' r2 with ⟨b, rest'⟩
    rcases b with _ | ⟨b0, b'⟩
    · rw [hsn] at h; exact absurd h (by simp)
    · rw [hsn] at h
      dsimp only at h
      have hrest : rest' = rest := by simpa using h
      subst hrest
      obtain ⟨hs1, hs2, hs3⟩ := spanNe_eq hsn
      refine ⟨b0 :: b', ?_, by simp, hs2, hs3⟩
      rw [stripFront_eq_some hsf, hs1]
      simp

lemma tryKey_eval {k b rest : List Char}
    (hb : b ≠ []) (hb2 : '&' ∉ b)
    (hrest : rest = [] ∨ ∃ s, rest = '&' :: s) :
    tryKey k (k ++ '=' :: (b ++ rest)) = some rest := by
  rw [tryKey]
  have hl : k ++ '=' :: (b ++ rest) = (k ++ ['=']) ++ (b ++ rest) := by simp
  rw [hl, stripFront_append _ _]
  dsimp only
  rw [spanNe_append hb2 hrest]
  rcases b with _ | ⟨b0, b'⟩
  · exact absurd rfl hb
  · rfl

lemma goodTryUtm : GoodTry tryUtm := by
  refine ⟨?_, ?_, ?_⟩
  · intro r r' h
    obtain ⟨a, b, hr, _, _, _, _, _⟩ := tryUtm_eq_some h
    subst hr
    exact ⟨'u' :: 't' :: 'm' :: '_' :: (a ++ '=' :: b), by simp⟩
  · intro r r' h
    obtain ⟨_, _, _, _, _, _, _, hrest⟩ := tryUtm_eq_some h
    exact hrest
  · intro r r' h
    obtain ⟨a, b, hr, _, ha2, hb, hb2, _⟩ := tryUtm_eq_some h
    rcases b with _ | ⟨b0, b'⟩
    · exact absurd rfl hb
    · refine ⟨'u' :: 't' :: 'm' :: '_' :: a, b0, b' ++ r', ?_, ?_, ?_⟩
      · rw [hr]; simp
      · intro hm
        rcases List.mem_cons.mp hm with h | hm; · exact absurd h (by decide)
        rcases List.mem_cons.mp hm with h | hm; · exact absurd h (by decide)
        rcases List.mem_cons.mp hm with h | hm; · exact absurd h (by decide)
        rcases List.mem_cons.mp hm with h | hm; · exact absurd h (by decide)
        exact ha2 hm
      · intro h0
        exact hb2 (h0 ▸ List.mem_cons_self b0 b')

lemma goodTryKey {k : List Char} (hk : '=' ∉ k) : GoodTry (tryKey k) := by
  refine ⟨?_, ?_, ?_⟩
  · intro r r' h
    obtain ⟨b, hr, _, _, _⟩ := tryKey_eq_some h
    subst hr
    exact ⟨k ++ '=' :: b, by simp⟩
  · intro r r' h
    obtain ⟨_, _, _, _, hrest⟩ := tryKey_eq_some h
    exact hrest
  · intro r r' h
    obtain ⟨b, hr, hb, hb2, _⟩ := tryKey_eq_some h
    rcases b with _ | ⟨b0, b'⟩
    · exact absurd rfl hb
    · refine ⟨k, b0, b' ++ r', by rw [hr]; simp, hk, ?_⟩
      intro h0
      exact hb2 (h0 ▸ List.mem_cons_self b0 b')

lemma scanAux_fuel (t : List Char → Option (List Char))
    (hT : ∀ {r r' : List Char}, t r = some r' → r' <:+ r) :
    ∀ n l, l.length ≤ n → scanAux t n l = scanSub t l := by
  intro n
  induction n using Nat.strong_induction_on with
  | _ n ih =>
    intro l hl
    rcases l with _ | ⟨c, r⟩
    · cases n <;> rfl
    · rcases n with _ | n
      · simp at hl
      · have hr : r.length ≤ n := by simpa using hl
        show _ = scanAux t (c :: r).length (c :: r)
        have hlen : (c :: r).length = r.length + 1 := List.length_cons c r
        rw [hlen, scanAux, scanAux]
        rcases hsep : isSep c with _ | _
        · simp only [Bool.false_eq_true, if_false]
          rw [ih n (by omega) r hr, ih r.length (by omega) r (le_refl _)]
        · simp only [if_true]
          rcases ht : t r with _ | r'
          · dsimp only
            rw [ih n (by omega) r hr, ih r.length (by omega) r (le_refl _)]
          · dsimp only
            have hr' : r'.length ≤ r.length := (hT ht).length_le
            rw [ih n (by omega) r' (le_trans hr' hr),
              ih r.length (by omega) r' hr']

lemma scanSub_nil (t : List Char → Option (List Char)) : scanSub t [] = [] := rfl

lemma scanSub_cons_not_sep {t : List Char → Option (List Char)} {c : Char}
    {r : List Char} (h : isSep c = false) :
    scanSub t (c :: r) = c :: scanSub t r := by
  show scanAux t (r.length + 1) (c :: r) = _
  rw [scanAux, h]
  simp only [Bool.false_eq_true, if_false]
  rfl

lemma scanSub_cons_some {t : List Char → Option (List Char)} {c : Char}
    {r r' : List Char}
    (hT : ∀ {s s' : List Char}, t s = some s' → s' <:+ s)
    (hc : isSep c = true) (h : t r = some r') :
    scanSub t (c :: r) = scanSub t r' := by
  show scanAux t (r.length + 1) (c :: r) = _
  rw [scanAux, hc]
  simp only [if_true, h]
  exact scanAux_fuel t hT r.length r' (hT h).length_le

lemma scanSub_cons_none {t : List Char → Option (List Char)} {c : Char}
    {r : List Char} (hc : isSep c = true) (h : t r = none) :
    scanSub t (c :: r) = c :: scanSub t r := by
  show scanAux t (r.length + 1) (c :: r) = _
  rw [scanAux, hc]
  simp only [if_true, h]
  rfl

/-- Is there a pattern occurrence (a separator whose tail `t` accepts)
anywhere in `l`? -/
def hasPat (t : List Char → Option (List Char)) : List Char → Bool
  | [] => false
  | c :: r => (isSep c && (t r).isSome) || hasPat t r

lemma hasPat_suffix {t : List Char → Option (List Char)} :
    ∀ {l l' : List Char}, l' <:+ l → hasPat t l = false → hasPat t l' = false := by
  intro l
  induction l with
  | nil =>
    intro l' hs h
    rw [List.suffix_nil.mp hs]
    rfl
  | cons c r ih =>
    intro l' hs h
    rw [hasPat, Bool.or_eq_false_iff] at h
    rcases hs with ⟨pre, hpre⟩
    rcases pre with _ | ⟨p0, pre⟩
    · have hl' : l' = c :: r := by simpa using hpre
      subst hl'
      rw [hasPat]
      exact Bool.or_eq_false_iff.mpr h
    · have h2 : pre ++ l' = r := by
        have := hpre
        simp only [List.cons_append, List.cons.injEq] at this
        exact this.2
      exact ih ⟨pre, h2⟩ h.2

lemma scanSub_of_hasPat_false {t : List Char → Option (List Char)} :
    ∀ {l : List Char}, hasPat t l = false → scanSub t l = l := by
  intro l
  induction l with
  | nil => intro _; rfl
  | cons c r ih =>
    intro h
    rw [hasPat, Bool.or_eq_false_iff] at h
    rcases hsep : isSep c with _ | _
    · rw [scanSub_cons_not_sep hsep, ih h.2]
    · have h1 := h.1
      rw [hsep, Bool.true_and] at h1
      have ht : t r = none := by
        rcases htr : t r with _ | r'
        · rfl
        · rw [htr] at h1
          exact absurd h1 (by simp)
      rw [scanSub_cons_none hsep ht, ih h.2]

lemma scanSub_sublist {t : List Char → Option (List Char)} (ht : GoodTry t) :
    ∀ l : List Char, (scanSub t l).Sublist l := by
  have main : ∀ n (l : List Char), l.length ≤ n → (scanSub t l).Sublist l := by
    intro n
    induction n with
    | zero =>
      intro l hl
      rw [List.length_eq_zero.mp (Nat.le_zero.mp hl)]
      exact List.Sublist.refl []
    | succ n ih =>
      intro l hl
      rcases l with _ | ⟨c, r⟩
      · exact List.Sublist.refl []
      · have hr : r.length ≤ n := by simpa using hl
        rcases hsep : isSep c with _ | _
        · rw [scanSub_cons_not_sep hsep]
          exact (ih r hr).cons₂ c
        · rcases htr : t r with _ | r'
          · rw [scanSub_cons_none hsep htr]
            exact (ih r hr).cons₂ c
          · rw [scanSub_cons_some ht.sfx hsep htr]
            have h1 : (scanSub t r').Sublist r' :=
              ih r' (le_trans (ht.sfx htr).length_le hr)
            exact (h1.trans (ht.sfx htr).sublist).cons c
  exact fun l => main l.length l (le_refl _)

lemma scanSub_amp {t : List Char → Option (List Char)} (ht : GoodTry t) :
    ∀ l : List Char, (l = [] ∨ ∃ s, l = '&' :: s) →
      scanSub t l = [] ∨ ∃ s, scanSub t l = '&' :: s := by
  have main : ∀ n (l : List Char), l.length ≤ n →
      (l = [] ∨ ∃ s, l = '&' :: s) →
      scanSub t l = [] ∨ ∃ s, scanSub t l = '&' :: s := by
    intro n
    induction n with
    | zero =>
      intro l hl _
      rw [List.length_eq_zero.mp (Nat.le_zero.mp hl)]
      exact Or.inl rfl
    | succ n ih =>
      intro l hl hamp
      rcases hamp with h | ⟨s, h⟩
      · subst h; exact Or.inl rfl
      · subst h
        have hs : s.length ≤ n := by simpa using hl
        have hsep : isSep '&' = true := rfl
        rcases htr : t s with _ | r'
        · rw [scanSub_cons_none hsep htr]
          exact Or.inr ⟨scanSub t s, rfl⟩
        · rw [scanSub_cons_some ht.sfx hsep htr]
          exact ih r' (le_trans (ht.sfx htr).length_le hs) (ht.amp htr)
  exact fun l => main l.length l (le_refl _)

lemma scanSub_append_nonsep {t : List Char → Option (List Char)} :
    ∀ (P l : List Char), (∀ c ∈ P, isSep c = false) →
      scanSub t (P ++ l) = P ++ scanSub t l := by
  intro P
  induction P with
  | nil => intro l _; rfl
  | cons p P' ih =>
    intro l hP
    rw [List.cons_append, scanSub_cons_not_sep (hP p (List.mem_cons_self p P')),
      ih l (fun c hc => hP c (List.mem_cons_of_mem p hc))]
    rfl

lemma scanSub_eq_append_nonsep {t : List Char → Option (List Char)} (ht : GoodTry t) :
    ∀ (l P X : List Char), (∀ c ∈ P, isSep c = false) →
      scanSub t l = P ++ X → ∃ l₂, l = P ++ l₂ ∧ scanSub t l₂ = X := by
  have main : ∀ n (l P X : List Char), l.length ≤ n →
      (∀ c ∈ P, isSep c = false) →
      scanSub t l = P ++ X → ∃ l₂, l = P ++ l₂ ∧ scanSub t l₂ = X := by
    intro n
    induction n with
    | zero =>
      intro l P X hl _ h
      rw [List.length_eq_zero.mp (Nat.le_zero.mp hl)] at h ⊢
      rw [scanSub_nil] at h
      rcases P with _ | ⟨p, P'⟩
      · have hX : X = [] := by simpa using h.symm
        exact ⟨[], rfl, by rw [hX]; rfl⟩
      · exact absurd h.symm (by simp)
    | succ n ih =>
      intro l P X hl hP h
      rcases P with _ | ⟨p, P'⟩
      · exact ⟨l, rfl, h⟩
      · rcases l with _ | ⟨c, r⟩
        · rw [scanSub_nil] at h
          exact absurd h.symm (by simp)
        · have hr : r.length ≤ n := by simpa using hl
          rcases hsep : isSep c with _ | _
          · rw [scanSub_cons_not_sep hsep, List.cons_append] at h
            obtain ⟨hcp, h2⟩ := List.cons.injEq .. ▸ h
            obtain ⟨l₂, hl₂, hsc⟩ :=
              ih r P' X hr (fun d hd => hP d (List.mem_cons_of_mem p hd)) h2
            exact ⟨l₂, by rw [hl₂, hcp, List.cons_append], hsc⟩
          · rcases htr : t r with _ | r'
            · rw [scanSub_cons_none hsep htr, List.cons_append] at h
              obtain ⟨hcp, _⟩ := List.cons.injEq .. ▸ h
              rw [hcp] at hsep
              exact absurd hsep (by rw [hP p (List.mem_cons_self p P')]; simp)
            · rw [scanSub_cons_some ht.sfx hsep htr] at h
              obtain ⟨l₂, hl₂, _⟩ :=
                ih r' (p :: P') X (le_trans (ht.sfx htr).length_le hr) hP h
              rcases ht.amp htr with hnil | ⟨s, hamp⟩
              · rw [hnil] at hl₂
                exact absurd hl₂.symm (by simp)
              · rw [hamp, List.cons_append] at hl₂
                obtain ⟨hpc, _⟩ := List.cons.injEq .. ▸ hl₂
                have := hP p (List.mem_cons_self p P')
                rw [← hpc] at this
                exact absurd this (by simp [isSep])
  exact fun l P X => main l.length l P X (le_refl _)

lemma firstEqSplit : ∀ (xs : List Char) {ys u v : List Char}, '=' ∉ xs → '=' ∉ ys →
    xs ++ '=' :: u = ys ++ '=' :: v → xs = ys ∧ u = v := by
  intro xs
  induction xs with
  | nil =>
    intro ys u v _ hys h
    rcases ys with _ | ⟨y, ys'⟩
    · simpa using h
    · rw [List.nil_append, List.cons_append] at h
      obtain ⟨h1, _⟩ := List.cons.injEq .. ▸ h
      exact absurd (h1 ▸ List.mem_cons_self y ys') hys
  | cons x xs' ih =>
    intro ys u v hxs hys h
    rcases ys with _ | ⟨y, ys'⟩
    · rw [List.cons_append, List.nil_append] at h
      obtain ⟨h1, _⟩ := List.cons.injEq .. ▸ h
      exact absurd (h1 ▸ List.mem_cons_self x xs') hxs
    · rw [List.cons_append, List.cons_append] at h
      obtain ⟨h1, h2⟩ := List.cons.injEq .. ▸ h
      obtain ⟨h3, h4⟩ := ih (fun hm => hxs (List.mem_cons_of_mem x hm))
        (fun hm => hys (List.mem_cons_of_mem y hm)) h2
      exact ⟨by rw [h1, h3], h4⟩

lemma firstEqBlocked {t : List Char → Option (List Char)} (ht : GoodTry t)
    {A B : List Char} (hA : '=' ∉ A) (hB : B = [] ∨ ∃ s, B = '&' :: s) :
    t (A ++ '=' :: B) = none := by
  rcases htr : t (A ++ '=' :: B) with _ | r'
  · rfl
  · exfalso
    obtain ⟨x, c, ys, hsplit, hx, hc⟩ := ht.eqSplit htr
    obtain ⟨_, hBeq⟩ := firstEqSplit A hA hx hsplit
    rcases hB with h | ⟨s, h⟩
    · rw [h] at hBeq
      exact absurd hBeq.symm (by simp)
    · rw [h] at hBeq
      obtain ⟨h1, _⟩ := List.cons.injEq .. ▸ hBeq
      exact hc h1.symm

lemma scanSub_append_eq {t : List Char → Option (List Char)} (ht : GoodTry t) :
    ∀ (A B : List Char), '=' ∉ A → (B = [] ∨ ∃ s, B = '&' :: s) →
      scanSub t (A ++ '=' :: B) = A ++ '=' :: scanSub t B := by
  intro A
  induction A with
  | nil =>
    intro B _ _
    rw [List.nil_append, scanSub_cons_not_sep (show isSep '=' = false from rfl), List.nil_append]
  | cons a A' ih =>
    intro B hA hB
    have hA' : '=' ∉ A' := fun hm => hA (List.mem_cons_of_mem a hm)
    rcases hsep : isSep a with _ | _
    · rw [List.cons_append, scanSub_cons_not_sep hsep, ih B hA' hB, List.cons_append]
    · rw [List.cons_append,
        scanSub_cons_none hsep (firstEqBlocked ht hA' hB),
        ih B hA' hB, List.cons_append]

lemma tryUtm_none_body {r₂ : List Char}
    (h : tryUtm ('u' :: 't' :: 'm' :: '_' :: r₂) = none) :
    ('=' ∉ r₂) ∨ (∃ r₃, r₂ = '=' :: r₃) ∨
    (∃ A B, r₂ = A ++ '=' :: B ∧ A ≠ [] ∧ '=' ∉ A ∧ (B = [] ∨ ∃ s, B = '&' :: s)) := by
  rw [tryUtm] at h
  have hsf : stripFront utmChars ('u' :: 't' :: 'm' :: '_' :: r₂) = some r₂ :=
    stripFront_append utmChars r₂
  rw [hsf] at h
  dsimp only at h
  rcases hsp : splitAtChar '=' r₂ with ⟨a, _ | r₃⟩
  · exact Or.inl (splitAtChar_eq_none hsp).2
  · rcases a with _ | ⟨a0, a'⟩
    · refine Or.inr (Or.inl ⟨r₃, ?_⟩)
      have h1 := (splitAtChar_eq_some hsp).1
      simpa using h1
    · rw [hsp] at h
      dsimp only at h
      rcases hsn : spanNe '&' r₃ with ⟨b, rest⟩
      rcases b with _ | ⟨b0, b'⟩
      · refine Or.inr (Or.inr ?_)
        obtain ⟨h1, h2⟩ := splitAtChar_eq_some hsp
        obtain ⟨hs1, _, hs3⟩ := spanNe_eq hsn
        refine ⟨a0 :: a', r₃, h1, by simp, h2, ?_⟩
        rw [show r₃ = rest by simpa using hs1]
        exact hs3
      · rw [hsn] at h
        dsimp only at h
        exact absurd h (by simp)

lemma tryKey_none_body {k r₃ : List Char} (h : tryKey k (k ++ '=' :: r₃) = none) :
    r₃ = [] ∨ ∃ s, r₃ = '&' :: s := by
  rw [tryKey] at h
  have hl : k ++ '=' :: r₃ = (k ++ ['=']) ++ r₃ := by simp
  rw [hl, stripFront_append] at h
  dsimp only at h
  rcases hsn : spanNe '&' r₃ with ⟨b, rest⟩
  rcases b with _ | ⟨b0, b'⟩
  · obtain ⟨hs1, _, hs3⟩ := spanNe_eq hsn
    rw [show r₃ = rest by simpa using hs1]
    exact hs3
  · rw [hsn] at h
    dsimp only at h
    exact absurd h (by simp)

/-- A later scan (by any well-behaved pattern) cannot create a `utm_` match
where none was: the seam of every deletion starts with `&` or the end, so
the blocking reason for the original failure is preserved. -/
lemma utm_none_scanSub {t₂ : List Char → Option (List Char)} (ht₂ : GoodTry t₂)
    {r : List Char} (h : tryUtm r = none) : tryUtm (scanSub t₂ r) = none := by
  rcases htr : tryUtm (scanSub t₂ r) with _ | rest
  · rfl
  exfalso
  obtain ⟨a, b, hw, ha, ha2, hb, hb2, _⟩ := tryUtm_eq_some htr
  have hP : ∀ c ∈ utmChars, isSep c = false := by decide
  obtain ⟨r₂, hr₂, hsc⟩ := scanSub_eq_append_nonsep ht₂ r utmChars
    (a ++ '=' :: (b ++ rest)) hP (by rw [hw]; rfl)
  rw [hr₂] at h
  have h' : tryUtm ('u' :: 't' :: 'm' :: '_' :: r₂) = none := h
  rcases tryUtm_none_body h' with h1 | ⟨r₃, h2⟩ | ⟨A, B, h3, _, hA2, hB⟩
  · have hsub := scanSub_sublist ht₂ r₂
    have hmem : '=' ∈ scanSub t₂ r₂ := by rw [hsc]; simp
    exact h1 (hsub.subset hmem)
  · rw [h2, scanSub_cons_not_sep (show isSep '=' = false from rfl)] at hsc
    rcases a with _ | ⟨a0, a'⟩
    · exact ha rfl
    · rw [List.cons_append] at hsc
      obtain ⟨h4, _⟩ := List.cons.injEq .. ▸ hsc
      exact ha2 (List.mem_cons.mpr (Or.inl h4))
  · rw [h3, scanSub_append_eq ht₂ A B hA2 hB] at hsc
    obtain ⟨_, hBb⟩ := firstEqSplit A hA2 ha2 hsc
    rcases scanSub_amp ht₂ B hB with hnil | ⟨s, hamp⟩
    · rw [hnil] at hBb
      rcases b with _ | ⟨b0, b'⟩
      · exact hb rfl
      · exact absurd hBb.symm (by simp)
    · rw [hamp] at hBb
      rcases b with _ | ⟨b0, b'⟩
      · exact hb rfl
      · rw [List.cons_append] at hBb
        obtain ⟨h5, _⟩ := List.cons.injEq .. ▸ hBb
        exact hb2 (List.mem_cons.mpr (Or.inl h5))

/-- A later scan cannot create a `<key>=` match where none was, for the
same seam reason. -/
lemma key_none_scanSub {k : List Char} (hk1 : ∀ c ∈ k, isSep c = false)
    {t₂ : List Char → Option (List Char)} (ht₂ : GoodTry t₂) {r : List Char}
    (h : tryKey k r = none) : tryKey k (scanSub t₂ r) = none := by
  rcases htr : tryKey k (scanSub t₂ r) with _ | rest
  · rfl
  exfalso
  obtain ⟨b, hw, hb, hb2, _⟩ := tryKey_eq_some htr
  have hP : ∀ c ∈ k ++ ['='], isSep c = false := by
    intro c hc
    rcases List.mem_append.mp hc with hck | hce
    · exact hk1 c hck
    · rw [List.mem_singleton.mp hce]
      rfl
  obtain ⟨r₃, hr₃, hsc⟩ := scanSub_eq_append_nonsep ht₂ r (k ++ ['='])
    (b ++ rest) hP (by rw [hw]; simp)
  have hr' : r = k ++ '=' :: r₃ := by rw [hr₃]; simp
  rw [hr'] at h
  have hamp : r₃ = [] ∨ ∃ s, r₃ = '&' :: s := tryKey_none_body h
  rcases scanSub_amp ht₂ r₃ hamp with hnil | ⟨s, hampS⟩
  · rw [hnil] at hsc
    rcases b with _ | ⟨b0, b'⟩
    · exact hb rfl
    · exact absurd hsc.symm (by simp)
  · rw [hampS] at hsc
    rcases b with _ | ⟨b0, b'⟩
    · exact hb rfl
    · rw [List.cons_append] at hsc
      obtain ⟨h5, _⟩ := List.cons.injEq .. ▸ hsc
      exact hb2 (List.mem_cons.mpr (Or.inl h5))

/-- A completed scan leaves no occurrence of its own pattern. -/
lemma hasPat_scanSub_self {t : List Char → Option (List Char)} (ht : GoodTry t)
    (hcross : ∀ {r : List Char}, t r = none → t (scanSub t r) = none) :
    ∀ l, hasPat t (scanSub t l) = false := by
  have main : ∀ n (l : List Char), l.length ≤ n → hasPat t (scanSub t l) = false := by
    intro n
    induction n with
    | zero =>
      intro l hl
      rw [List.length_eq_zero.mp (Nat.le_zero.mp hl)]
      rfl
    | succ n ih =>
      intro l hl
      rcases l with _ | ⟨c, r⟩
      · rfl
      · have hr : r.length ≤ n := by simpa using hl
        rcases hsep : isSep c with _ | _
        · rw [scanSub_cons_not_sep hsep, hasPat, hsep, Bool.false_and, Bool.false_or]
          exact ih r hr
        · rcases htr : t r with _ | r'
          · rw [scanSub_cons_none hsep htr, hasPat, hsep, Bool.true_and,
              hcross htr, Bool.or_eq_false_iff]
            exact ⟨rfl, ih r hr⟩
          · rw [scanSub_cons_some ht.sfx hsep htr]
            exact ih r' (le_trans (ht.sfx htr).length_le hr)
  exact fun l => main l.length l (le_refl _)

/-- A pattern absent from `l` is still absent after a scan for another
(well-behaved) pattern. -/
lemma hasPat_preserved {p t₂ : List Char → Option (List Char)} (ht₂ : GoodTry t₂)
    (hcross : ∀ {r : List Char}, p r = none → p (scanSub t₂ r) = none) :
    ∀ {l}, hasPat p l = false → hasPat p (scanSub t₂ l) = false := by
  have main : ∀ n (l : List Char), l.length ≤ n → hasPat p l = false →
      hasPat p (scanSub t₂ l) = false := by
    intro n
    induction n with
    | zero =>
      intro l hl _
      rw [List.length_eq_zero.mp (Nat.le_zero.mp hl)]
      rfl
    | succ n ih =>
      intro l hl h
      rcases l with _ | ⟨c, r⟩
      · rfl
      · have hr : r.length ≤ n := by simpa using hl
        rw [hasPat, Bool.or_eq_false_iff] at h
        rcases hsep : isSep c with _ | _
        · rw [scanSub_cons_not_sep hsep, hasPat, hsep, Bool.false_and, Bool.false_or]
          exact ih r hr h.2
        · rcases htr : t₂ r with _ | r'
          · have hpr : p r = none := by
              have h1 := h.1
              rw [hsep, Bool.true_and] at h1
              rcases hpr' : p r with _ | x
              · rfl
              · rw [hpr'] at h1; exact absurd h1 (by simp)
            rw [scanSub_cons_none hsep htr, hasPat, hsep, Bool.true_and,
              hcross hpr, Bool.or_eq_false_iff]
            exact ⟨rfl, ih r hr h.2⟩
          · rw [scanSub_cons_some ht₂.sfx hsep htr]
            exact ih r' (le_trans (ht₂.sfx htr).length_le hr)
              (hasPat_suffix (ht₂.sfx htr) h.2)
  exact fun {l} => main l.length l (le_refl _)

lemma tryUtm_some_append {r r' : List Char} (ys : List Char)
    (h : tryUtm r = some r') : ∃ r'', tryUtm (r ++ ys) = some r'' := by
  obtain ⟨a, b, hr, ha, ha2, hb, hb2, hrest⟩ := tryUtm_eq_some h
  subst hr
  rcases hrest with hnil | ⟨s, hamp⟩
  · subst hnil
    rcases hsn : spanNe '&' ys with ⟨c, d⟩
    obtain ⟨hys, hc, hd⟩ := spanNe_eq hsn
    refine ⟨d, ?_⟩
    have e : ('u' :: 't' :: 'm' :: '_' :: (a ++ '=' :: (b ++ []))) ++ ys
        = 'u' :: 't' :: 'm' :: '_' :: (a ++ '=' :: ((b ++ c) ++ d)) := by
      simp [hys]
    rw [e]
    refine tryUtm_eval ha ha2 (by simp [hb]) ?_ hd
    intro hm
    rcases List.mem_append.mp hm with hmb | hmc
    · exact hb2 hmb
    · exact hc hmc
  · subst hamp
    refine ⟨'&' :: (s ++ ys), ?_⟩
    have e : ('u' :: 't' :: 'm' :: '_' :: (a ++ '=' :: (b ++ '&' :: s))) ++ ys
        = 'u' :: 't' :: 'm' :: '_' :: (a ++ '=' :: (b ++ '&' :: (s ++ ys))) := by
      simp
    rw [e]
    exact tryUtm_eval ha ha2 hb hb2 (Or.inr ⟨s ++ ys, rfl⟩)

lemma tryKey_some_append {k r r' : List Char} (ys : List Char)
    (h : tryKey k r = some r') : ∃ r'', tryKey k (r ++ ys) = some r'' := by
  obtain ⟨b, hr, hb, hb2, hrest⟩ := tryKey_eq_some h
  subst hr
  rcases hrest with hnil | ⟨s, hamp⟩
  · subst hnil
    rcases hsn : spanNe '&' ys with ⟨c, d⟩
    obtain ⟨hys, hc, hd⟩ := spanNe_eq hsn
    refine ⟨d, ?_⟩
    have e : (k ++ '=' :: (b ++ [])) ++ ys = k ++ '=' :: ((b ++ c) ++ d) := by
      simp [hys]
    rw [e]
    refine tryKey_eval (by simp [hb]) ?_ hd
    intro hm
    rcases List.mem_append.mp hm with hmb | hmc
    · exact hb2 hmb
    · exact hc hmc
  · subst hamp
    refine ⟨'&' :: (s ++ ys), ?_⟩
    have e : (k ++ '=' :: (b ++ '&' :: s)) ++ ys = k ++ '=' :: (b ++ '&' :: (s ++ ys)) := by
      simp
    rw [e]
    exact tryKey_eval hb hb2 (Or.inr ⟨s ++ ys, rfl⟩)

lemma hasPat_append_mono {p : List Char → Option (List Char)}
    (hext : ∀ {r r' : List Char} (ys : List Char), p r = some r' →
      ∃ r'', p (r ++ ys) = some r'') :
    ∀ {l ys : List Char}, hasPat p l = true → hasPat p (l ++ ys) = true := by
  intro l
  induction l with
  | nil => intro ys h; exact absurd h (by simp [hasPat])
  | cons c r ih =>
    intro ys h
    rw [hasPat, Bool.or_eq_true] at h
    rw [List.cons_append, hasPat, Bool.or_eq_true]
    rcases h with h | h
    · rw [Bool.and_eq_true] at h
      rcases hpr : p r with _ | r'
      · rw [hpr] at h
        exact absurd h.2 (by simp)
      · obtain ⟨r'', hr''⟩ := hext ys hpr
        exact Or.inl (by rw [h.1, hr'']; rfl)
    · exact Or.inr (ih h)

lemma hasPat_dropTrailingSep {p : List Char → Option (List Char)}
    (hext : ∀ {r r' : List Char} (ys : List Char), p r = some r' →
      ∃ r'', p (r ++ ys) = some r'')
    {l : List Char} (h : hasPat p l = false) :
    hasPat p (dropTrailingSep l) = false := by
  rw [dropTrailingSep]
  rcases hlast : l.getLast? with _ | c
  · exact h
  · rcases hsep : isSep c with _ | _
    · simpa [hsep] using h
    · simp only [hsep, if_true]
      by_contra hcon
      have hT : hasPat p l.dropLast = true := by
        rcases hv : hasPat p l.dropLast with _ | _
        · exact absurd hv hcon
        · rfl
      have hne : l ≠ [] := by
        intro h0
        rw [h0] at hlast
        exact absurd hlast (by simp)
      have hl : l.dropLast ++ [c] = l := by
        have h2 := List.dropLast_append_getLast hne
        rw [List.getLast?_eq_getLast l hne, Option.some.injEq] at hlast
        rw [hlast] at h2
        exact h2
      rw [← hl] at h
      exact absurd (hasPat_append_mono hext hT) (by rw [h]; simp)

lemma goodTryFb : GoodTry (tryKey fbclidChars) := goodTryKey (by decide)

lemma goodTryGc : GoodTry (tryKey gclidChars) := goodTryKey (by decide)

lemma fbNonsep : ∀ c ∈ fbclidChars, isSep c = false := by decide

lemma gcNonsep : ∀ c ∈ gclidChars, isSep c = false := by decide

lemma normalize_url_data (u : String) :
    (normalize_url u).data = dropTrailingSep (scanSub (tryKey gclidChars)
      (scanSub (tryKey fbclidChars) (scanSub tryUtm (pyStripL u.data)))) := rfl

lemma hasUtm_normalize (u : String) :
    hasPat tryUtm (normalize_url u).data = false := by
  rw [normalize_url_data]
  apply hasPat_dropTrailingSep (fun ys h => tryUtm_some_append ys h)
  apply hasPat_preserved goodTryGc (fun h => utm_none_scanSub goodTryGc h)
  apply hasPat_preserved goodTryFb (fun h => utm_none_scanSub goodTryFb h)
  exact hasPat_scanSub_self goodTryUtm (fun h => utm_none_scanSub goodTryUtm h) _

lemma hasFb_normalize (u : String) :
    hasPat (tryKey fbclidChars) (normalize_url u).data = false := by
  rw [normalize_url_data]
  apply hasPat_dropTrailingSep (fun ys h => tryKey_some_append ys h)
  apply hasPat_preserved goodTryGc (fun h => key_none_scanSub fbNonsep goodTryGc h)
  exact hasPat_scanSub_self goodTryFb (fun h => key_none_scanSub fbNonsep goodTryFb h) _

lemma hasGc_normalize (u : String) :
    hasPat (tryKey gclidChars) (normalize_url u).data = false := by
  rw [normalize_url_data]
  apply hasPat_dropTrailingSep (fun ys h => tryKey_some_append ys h)
  exact hasPat_scanSub_self goodTryGc (fun h => key_none_scanSub gcNonsep goodTryGc h) _

/-- C7 counterexample: `normalize_url` is not idempotent.  The final
`re.sub(r"[?&]$", "", u)` removes only ONE trailing separator, so "??"
normalizes to "?" while a second application reaches "". -/
theorem normalize_url_not_idempotent :
    normalize_url "??" = "?" ∧
    normalize_url (normalize_url "??") = "" ∧
    normalize_url (normalize_url "??") ≠ normalize_url "??" := by
  exact ⟨by decide, by decide, by decide⟩

/-- C7 (amended).  The empty input yields the empty output, and
`normalize_url` is idempotent on every input whose normal form keeps no
boundary whitespace (re-exposed when a removed parameter was at an end) and
does not end in `?`/`&` (the single-separator trim): for such `u` a second
application changes nothing.  The substitution passes themselves can never
re-fire on their own output, so these two boundary conditions are the only
sources of non-idempotence. -/
theorem normalize_url_idempotent_amended :
    normalize_url "" = "" ∧
    ∀ u : String, pyStrip (normalize_url u) = normalize_url u →
      ((normalize_url u).data.getLast?.all fun c => !(isSep c)) = true →
      normalize_url (normalize_url u) = normalize_url u := by
  refine ⟨by decide, ?_⟩
  intro u h1 h2
  have hstrip : pyStripL (normalize_url u).data = (normalize_url u).data := by
    have h3 := congrArg String.data h1
    simpa [pyStrip] using h3
  have hu : scanSub tryUtm (normalize_url u).data = (normalize_url u).data :=
    scanSub_of_hasPat_false (hasUtm_normalize u)
  have hf : scanSub (tryKey fbclidChars) (normalize_url u).data
      = (normalize_url u).data :=
    scanSub_of_hasPat_false (hasFb_normalize u)
  have hg : scanSub (tryKey gclidChars) (normalize_url u).data
      = (normalize_url u).data :=
    scanSub_of_hasPat_false (hasGc_normalize u)
  have hdrop : dropTrailingSep (normalize_url u).data = (normalize_url u).data := by
    rcases hlast : (normalize_url u).data.getLast? with _ | c
    · rw [dropTrailingSep, hlast]
    · rw [hlast] at h2
      have hsep : isSep c = false := by simpa using h2
      rw [dropTrailingSep, hlast]
      dsimp only
      rw [hsep]
      simp
  show String.mk (dropTrailingSep (scanSub (tryKey gclidChars)
    (scanSub (tryKey fbclidChars)
      (scanSub tryUtm (pyStripL (normalize_url u).data))))) = normalize_url u
  rw [hstrip, hu, hf, hg, hdrop]

theorem normalize_url_idempotent_witness :
    pyStrip (normalize_url "https://a.com/x?utm_source=tw&b=2")
      = normalize_url "https://a.com/x?utm_source=tw&b=2" ∧
    ((normalize_url "https://a.com/x?utm_source=tw&b=2").data.getLast?.all
      fun c => !(isSep c)) = true ∧
    normalize_url (normalize_url "https://a.com/x?utm_source=tw&b=2")
      = normalize_url "https://a.com/x?utm_source=tw&b=2" :=
  ⟨by decide, by decide,
    normalize_url_idempotent_amended.2 "https://a.com/x?utm_source=tw&b=2"
      (by decide) (by decide)⟩

/-! ## Feed ingestion (`parse_feed`, src/ingest.py) -/

/-- "The head, if any, is not whitespace." -/
def headNotWs (l : List Char) : Prop :=
  ∀ c, l.head? = some c → c.isWhitespace = false

lemma headNotWs_of_isPrefix {l m : List Char} (hm : headNotWs m)
    (hp : l <+: m) : headNotWs l := by
  intro c hc
  rcases l with _ | ⟨x, l'⟩
  · exact absurd hc (by simp)
  · rcases hp with ⟨t, ht⟩
    have hx : x = c := by simpa using hc
    subst hx
    apply hm
    rw [← ht]
    rfl

lemma dropWhile_headNot (p : Char → Bool) :
    ∀ {l : List Char} {c : Char}, (l.dropWhile p).head? = some c → p c = false := by
  intro l
  induction l with
  | nil => intro c hc; exact absurd hc (by simp)
  | cons x xs ih =>
    intro c hc
    rcases hpx : p x with _ | _
    · rw [List.dropWhile_cons, hpx] at hc
      simp only [Bool.false_eq_true, if_false, List.head?_cons, Option.some.injEq] at hc
      rw [← hc]
      exact hpx
    · rw [List.dropWhile_cons, hpx] at hc
      simp only [if_true] at hc
      exact ih hc

lemma pyStripL_headNotWs (l : List Char) : headNotWs (pyStripL l) := by
  have hm : headNotWs (l.dropWhile Char.isWhitespace) :=
    fun c hc => dropWhile_headNot Char.isWhitespace hc
  refine headNotWs_of_isPrefix hm ?_
  have hsfx : ((l.dropWhile Char.isWhitespace).reverse.dropWhile Char.isWhitespace)
      <:+ (l.dropWhile Char.isWhitespace).reverse := List.dropWhile_suffix _
  have := List.reverse_suffix.mp (by
    simpa using hsfx :
      (((l.dropWhile Char.isWhitespace).reverse.dropWhile Char.isWhitespace).reverse).reverse
        <:+ (l.dropWhile Char.isWhitespace).reverse)
  exact this

lemma scanSub_headNotWs {t : List Char → Option (List Char)} (ht : GoodTry t) :
    ∀ {l : List Char}, headNotWs l → headNotWs (scanSub t l) := by
  have main : ∀ n (l : List Char), l.length ≤ n → headNotWs l →
      headNotWs (scanSub t l) := by
    intro n
    induction n with
    | zero =>
      intro l hl _
      rw [List.length_eq_zero.mp (Nat.le_zero.mp hl)]
      intro c hc
      rw [scanSub_nil] at hc
      exact absurd hc (by simp)
    | succ n ih =>
      intro l hl h
      rcases l with _ | ⟨c, r⟩
      · intro d hd
        rw [scanSub_nil] at hd
        exact absurd hd (by simp)
      · have hr : r.length ≤ n := by simpa using hl
        rcases hsep : isSep c with _ | _
        · rw [scanSub_cons_not_sep hsep]
          intro d hd
          have hdc : c = d := by simpa using hd
          subst hdc
          exact h c rfl
        · rcases htr : t r with _ | r'
          · rw [scanSub_cons_none hsep htr]
            intro d hd
            have hdc : c = d := by simpa using hd
            subst hdc
            exact h c rfl
          · rw [scanSub_cons_some ht.sfx hsep htr]
            refine ih r' (le_trans (ht.sfx htr).length_le hr) ?_
            rcases ht.amp htr with hnil | ⟨s, hamp⟩
            · subst hnil; intro d hd; exact absurd hd (by simp)
            · subst hamp
              intro d hd
              have hdc : '&' = d := by simpa using hd
              subst hdc
              decide
  exact fun {l} => main l.length l (le_refl _)

lemma dropTrailingSep_headNotWs {l : List Char} (h : headNotWs l) :
    headNotWs (dropTrailingSep l) := by
  rw [dropTrailingSep]
  rcases hlast : l.getLast? with _ | c
  · exact h
  · rcases hsep : isSep c with _ | _
    · simpa [hsep] using h
    · simp only [hsep, if_true]
      exact headNotWs_of_isPrefix h (List.dropLast_prefix l)

lemma normalize_url_headNotWs (u : String) : headNotWs (normalize_url u).data := by
  rw [normalize_url_data]
  exact dropTrailingSep_headNotWs (scanSub_headNotWs goodTryGc
    (scanSub_headNotWs goodTryFb (scanSub_headNotWs goodTryUtm
      (pyStripL_headNotWs u.data))))

lemma dropWhile_ne_nil_of_exists {p : Char → Bool} :
    ∀ {l : List Char}, (∃ c ∈ l, p c = false) → l.dropWhile p ≠ [] := by
  intro l
  induction l with
  | nil => rintro ⟨c, hc, _⟩; exact absurd hc (by simp)
  | cons x xs ih =>
    rintro ⟨c, hc, hpc⟩
    rcases hpx : p x with _ | _
    · rw [List.dropWhile_cons, hpx]
      simp
    · rw [List.dropWhile_cons, hpx]
      simp only [if_true]
      apply ih
      rcases List.mem_cons.mp hc with h | h
      · rw [h] at hpc
        rw [hpc] at hpx
        exact absurd hpx (by simp)
      · exact ⟨c, h, hpc⟩

lemma pyStripL_ne_nil {l : List Char} (hne : l ≠ []) (h : headNotWs l) :
    pyStripL l ≠ [] := by
  rcases l with _ | ⟨c, r⟩
  · exact absurd rfl hne
  · have hc : c.isWhitespace = false := h c rfl
    have h1 : (c :: r).dropWhile Char.isWhitespace = c :: r := by
      rw [List.dropWhile_cons, hc]
      simp
    rw [pyStripL, h1]
    intro h0
    have h2 : (c :: r).reverse.dropWhile Char.isWhitespace = [] := by
      rcases h3 : (c :: r).reverse.dropWhile Char.isWhitespace with _ | _
      · rfl
      · rw [h3] at h0
        exact absurd h0 (by simp)
    exact dropWhile_ne_nil_of_exists ⟨c, by simp, hc⟩ h2

/-- `normalize_url` output, when non-empty, never strips to empty: its first
character is not whitespace. -/
lemma pyStrip_normalize_ne_empty {s : String} (h : normalize_url s ≠ "") :
    pyStrip (normalize_url s) ≠ "" := by
  intro h0
  apply h
  have hne : pyStripL (normalize_url s).data = [] := by
    have := congrArg String.data h0
    simpa [pyStrip] using this
  have hdata : (normalize_url s).data ≠ [] := by
    intro hd
    apply h
    have : normalize_url s = String.mk [] := by
      rw [← hd]
    exact this
  exact absurd hne (pyStripL_ne_nil hdata (normalize_url_headNotWs s))

/-- One feedparser entry as `parse_feed` reads it; every `getattr` default
is the empty (falsy) string. -/
structure RawEntry where
  title : String := ""
  link : String := ""
  id : String := ""
  guid : String := ""
  published : String := ""
  updated : String := ""
  created : String := ""
  summary : String := ""
  deriving Repr, DecidableEq

/-- Python `a or b` on strings (first truthy operand). -/
def pyOr (a b : String) : String := if a = "" then b else a

/-- The loop body of `parse_feed` (src/ingest.py lines 20-49) for one entry:
strip the title, normalize the link, take the first truthy of
id/guid/link/title (stripped) as the item guid, parse the first truthy of
published/updated/created through the external date parser `dtparse`
(failure gives `none`), and drop the entry when the normalized link is
empty.  `dtparse` models `dateutil.parser.parse(...).astimezone(tz=None)
.isoformat()`. -/
def parseEntry (dtparse : String → Option String) (source_name : String)
    (e : RawEntry) : Option FeedItem :=
  let title := pyStrip e.title
  let link := normalize_url e.link
  let guid := pyStrip (pyOr e.id (pyOr e.guid (pyOr link title)))
  let published_iso :=
    match (if e.published ≠ "" then some e.published
           else if e.updated ≠ "" then some e.updated
           else if e.created ≠ "" then some e.created else none) with
    | none => none
    | some v => dtparse v
  let summary := pyStrip e.summary
  if link = "" then none
  else some ⟨source_name, title, link, guid, published_iso, summary⟩

/-- `parse_feed` (src/ingest.py lines 17-50): first 50 entries, one
`FeedItem` per entry with a non-empty normalized link. -/
def parse_feed (dtparse : String → Option String) (source_name : String)
    (entries : List RawEntry) : List FeedItem :=
  (entries.take 50).filterMap (parseEntry dtparse source_name)

/-- An entry whose feed id is whitespace-only. -/
def wsIdEntry : RawEntry :=
  { title := "t", link := "http://a/b", id := " " }

/-- C10 counterexample: a whitespace-only feed `id` is truthy, so the
guid chain picks it and then strips it to the EMPTY string even though the
entry's link (and hence the item's canonical URL) is non-empty — the claim
"non-empty guid whenever the entry has a non-empty link" is false. -/
theorem parse_feed_whitespace_id_empty_guid :
    parse_feed (fun _ => none) "S" [wsIdEntry]
      = [⟨"S", "t", "http://a/b", "", none, ""⟩] ∧
    (⟨"S", "t", "http://a/b", "", none, ""⟩ : FeedItem).guid = "" ∧
    (⟨"S", "t", "http://a/b", "", none, ""⟩ : FeedItem).url ≠ "" := by
  exact ⟨by decide, rfl, by decide⟩

/-- C10 (amended).  Every item produced by `parse_feed` has a non-empty
canonical URL (empty links are dropped), and its guid is non-empty whenever
the feed's id/guid fields are either absent or do not strip to whitespace:
a truthy but whitespace-only id (or guid) field short-circuits the fallback
chain and strips to an empty item guid.  When both fields are absent the
guid falls back to the (non-empty, never whitespace-headed) link, so
guid-based dedup degenerates to URL-based dedup for feeds without real
guids. -/
theorem parse_feed_guid_amended (dtparse : String → Option String)
    (source_name : String) (e : RawEntry) (it : FeedItem)
    (h : parseEntry dtparse source_name e = some it) :
    it.url ≠ "" ∧
    ((pyStrip e.id ≠ "" ∨ (e.id = "" ∧ pyStrip e.guid ≠ "") ∨
        (e.id = "" ∧ e.guid = "")) → it.guid ≠ "") := by
  rw [parseEntry] at h
  rcases hlink : normalize_url e.link == "" with _ | _
  · have hln : ¬ normalize_url e.link = "" := by
      intro h0
      rw [h0] at hlink
      exact absurd hlink (by simp)
    rw [if_neg hln] at h
    have hit : it = ⟨source_name, pyStrip e.title, normalize_url e.link,
        pyStrip (pyOr e.id (pyOr e.guid (pyOr (normalize_url e.link) (pyStrip e.title)))),
        (match (if e.published ≠ "" then some e.published
                else if e.updated ≠ "" then some e.updated
                else if e.created ≠ "" then some e.created else none) with
         | none => none
         | some v => dtparse v),
        pyStrip e.summary⟩ := by
      exact (Option.some.injEq .. ▸ h).symm
    constructor
    · rw [hit]
      exact hln
    · intro hguid
      rw [hit]
      show pyStrip (pyOr e.id (pyOr e.guid (pyOr (normalize_url e.link)
        (pyStrip e.title)))) ≠ ""
      rcases hguid with hid | ⟨hid, hg⟩ | ⟨hid, hg⟩
      · have hidne : e.id ≠ "" := by
          intro h0
          rw [h0] at hid
          exact hid rfl
        rw [pyOr, if_neg hidne]
        exact hid
      · have hgne : e.guid ≠ "" := by
          intro h0
          rw [h0] at hg
          exact hg rfl
        rw [pyOr, if_pos hid, pyOr, if_neg hgne]
        exact hg
      · rw [pyOr, if_pos hid, pyOr, if_pos hg, pyOr, if_neg hln]
        exact pyStrip_normalize_ne_empty hln
  · have hl0 : normalize_url e.link = "" := by simpa using hlink
    rw [if_pos hl0] at h
    exact absurd h (by simp)

theorem parse_feed_guid_witness :
    (⟨"S", "Title", "http://a/x", "http://a/x", none, ""⟩ : FeedItem).url ≠ "" ∧
    (⟨"S", "Title", "http://a/x", "http://a/x", none, ""⟩ : FeedItem).guid ≠ "" := by
  have h := parse_feed_guid_amended (fun _ => none) "S"
    { title := "Title", link := "http://a/x" }
    ⟨"S", "Title", "http://a/x", "http://a/x", none, ""⟩ (by decide)
  exact ⟨h.1, h.2 (Or.inr (Or.inr ⟨rfl, rfl⟩))⟩

end DealEngine
